import Mathlib

/-!
Verification development for the leasing-report tracker (src/src/app/page.tsx).

The filter / sort / import / export pipeline of the page component is shallowly
embedded here.  JavaScript `Date` values are modelled as integer timestamps in
milliseconds since the Unix epoch; calendar conversion follows the proleptic
Gregorian civil calendar exactly as ECMAScript `MakeDay`/`TimeClip` prescribe
(the embedding uses the standard era-based civil-from-days / days-from-civil
algorithms and proves them mutually inverse).  The local timezone is modelled
with offset zero (UTC), date strings are modelled on the ISO-8601 subset that
the application itself produces and consumes (`YYYY-MM-DD` and the
`Date.prototype.toISOString` format), and JavaScript string operations are
modelled on ASCII content.
-/

set_option maxRecDepth 400000

/-- Milliseconds per UTC calendar day, as used by `Date.UTC` / `setUTCHours`. -/
def msPerDay : Int := 86400000

/-- Gregorian leap-year test (as in ECMAScript `DaysInYear`). -/
def isLeap (y : Int) : Bool := (y % 4 == 0 && y % 100 != 0) || (y % 400 == 0)

/-- Length of month `m` (1..12) of year `y` in the proleptic Gregorian calendar. -/
def daysInMonth (y : Int) (m : Nat) : Nat :=
  if m = 2 then (if isLeap y then 29 else 28)
  else if m = 4 ∨ m = 6 ∨ m = 9 ∨ m = 11 then 30
  else 31

/-- Day-of-era offset of the start of year-of-era `k` (years counted from
March 1 of a 400-year era). -/
def yearStartDoe (k : Nat) : Nat := 365 * k + k / 4 - k / 100

/-- Whether year-of-era `k` (a March-based year) contains a leap day. -/
def leapYoe (k : Nat) : Bool := ((k+1) % 4 == 0 && (k+1) % 100 != 0) || (k+1 == 400)

/-- Length in days of year-of-era `k`. -/
def yoeLen (k : Nat) : Nat := if leapYoe k then 366 else 365

/-- Year-of-era of a day-of-era (`0 ≤ doe ≤ 146096`), by the closed formula. -/
def yoeOfDoe (doe : Nat) : Nat := (doe - doe / 1460 + doe / 36524 - doe / 146096) / 365

/-- Day number (days since 1970-01-01 UTC) of the civil date `y-m-d`,
the Gregorian conversion underlying ECMAScript `MakeDay`. -/
def daysFromCivil (y : Int) (m d : Nat) : Int :=
  let y' : Int := y - (if m ≤ 2 then 1 else 0)
  let era : Int := y' / 400
  let yoe : Nat := (y' % 400).toNat
  let mp : Nat := if 2 < m then m - 3 else m + 9
  let doy : Nat := (153 * mp + 2) / 5 + d - 1
  let doe : Nat := yearStartDoe yoe + doy
  era * 146097 + (doe : Int) - 719468

/-- Civil date `(y, m, d)` of a day number (days since 1970-01-01 UTC),
the Gregorian conversion underlying `Date.prototype.getUTCFullYear` etc. -/
def civilFromDays (n : Int) : Int × Nat × Nat :=
  let n' : Int := n + 719468
  let era : Int := n' / 146097
  let doe : Nat := (n' % 146097).toNat
  let yoe : Nat := yoeOfDoe doe
  let doy : Nat := doe - yearStartDoe yoe
  let mp : Nat := (5 * doy + 2) / 153
  let d : Nat := doy - (153 * mp + 2) / 5 + 1
  let m : Nat := if mp < 10 then mp + 3 else mp - 9
  (era * 400 + (yoe : Int) + (if m ≤ 2 then 1 else 0), m, d)

/-- Components of `civilFromDays`, named for use in proofs. -/
def cfdDoe (n : Int) : Nat := ((n + 719468) % 146097).toNat

def cfdYoe (n : Int) : Nat := yoeOfDoe (cfdDoe n)

def cfdDoy (n : Int) : Nat := cfdDoe n - yearStartDoe (cfdYoe n)

def cfdMp (n : Int) : Nat := (5 * cfdDoy n + 2) / 153

def cfdD (n : Int) : Nat := cfdDoy n - (153 * cfdMp n + 2) / 5 + 1

def cfdM (n : Int) : Nat := if cfdMp n < 10 then cfdMp n + 3 else cfdMp n - 9

def cfdY (n : Int) : Int :=
  (n + 719468) / 146097 * 400 + (cfdYoe n : Int) + (if cfdM n ≤ 2 then 1 else 0)

/-- A civil date triple is within Gregorian range. -/
def ValidYmd (y : Int) (m d : Nat) : Prop :=
  1 ≤ m ∧ m ≤ 12 ∧ 1 ≤ d ∧ d ≤ daysInMonth y m

instance (y : Int) (m d : Nat) : Decidable (ValidYmd y m d) := by
  unfold ValidYmd; infer_instance

-- ## JavaScript string and number primitives

/-- ASCII lower-casing of one character (JS `String.prototype.toLowerCase`,
modelled on the ASCII range). -/
def asciiLower (c : Char) : Char :=
  if 'A' ≤ c ∧ c ≤ 'Z' then Char.ofNat (c.toNat + 32) else c

/-- Model of `String.prototype.toLowerCase` (ASCII content). -/
def jsToLower (s : String) : String := ⟨s.data.map asciiLower⟩

/-- Whether `sub` occurs at the start of `hay` (executable). -/
def listIsPrefixB : List Char → List Char → Bool
  | [], _ => true
  | _ :: _, [] => false
  | a :: as, b :: bs => a == b && listIsPrefixB as bs

/-- Whether `sub` occurs somewhere inside `hay` (executable). -/
def strContainsB (sub hay : List Char) : Bool :=
  match hay with
  | [] => sub.isEmpty
  | c :: rest => listIsPrefixB sub (c :: rest) || strContainsB sub rest

/-- Model of `String.prototype.includes`: `jsIncludes s sub` is true iff `sub`
is a contiguous substring of `s`. -/
def jsIncludes (s sub : String) : Bool := strContainsB sub.data s.data

/-- JavaScript `<` on strings: lexicographic comparison by code unit. -/
def jsStrLt : List Char → List Char → Bool
  | [], [] => false
  | [], _ :: _ => true
  | _ :: _, [] => false
  | a :: as, b :: bs =>
    if a.toNat < b.toNat then true
    else if b.toNat < a.toNat then false
    else jsStrLt as bs

/-- The decimal digit character for `n < 10`. -/
def digitChar : Nat → Char
  | 0 => '0' | 1 => '1' | 2 => '2' | 3 => '3' | 4 => '4'
  | 5 => '5' | 6 => '6' | 7 => '7' | 8 => '8' | _ => '9'

/-- Numeric value of a decimal digit character. -/
def digitVal (c : Char) : Nat := c.toNat - 48

/-- Whether a character is a decimal digit (code points 48-57). -/
def isDigitChar (c : Char) : Bool := decide (48 ≤ c.toNat ∧ c.toNat ≤ 57)

/-- Decimal digit list, by fuel (structural, so that it evaluates in the
kernel); the fuel is always sufficient when it exceeds the number. -/
def natDigitsAux : Nat → Nat → List Char
  | 0, _ => []
  | fuel + 1, n =>
    if n < 10 then [digitChar n]
    else natDigitsAux fuel (n / 10) ++ [digitChar (n % 10)]

/-- Decimal digit list of a natural number (most significant first). -/
def natDigits (n : Nat) : List Char := natDigitsAux (n + 1) n

/-- JavaScript `Number.prototype.toString` for integral numbers. -/
def jsNumToString (w : Int) : String :=
  if w < 0 then ⟨'-' :: natDigits w.natAbs⟩ else ⟨natDigits w.toNat⟩

/-- Value of a list of decimal digit characters. -/
def digitsToNat (ds : List Char) : Nat := ds.foldl (fun a c => 10 * a + digitVal c) 0

/-- Whitespace skipped by `parseInt`. -/
def isSpaceChar (c : Char) : Bool := c = ' ' ∨ c = '\t' ∨ c = '\n' ∨ c = '\r'

/-- The digit-prefix part of `parseInt`: longest leading run of digits, or
failure when there is none. -/
def jsParseIntCore (cs : List Char) : Option Nat :=
  let ds := cs.takeWhile isDigitChar
  if ds.isEmpty then none else some (digitsToNat ds)

/-- Model of JavaScript `parseInt(s, 10)`: skip whitespace, optional sign,
longest digit prefix; `NaN` (here `none`) when no digits follow. -/
def jsParseInt (s : String) : Option Int :=
  match s.data.dropWhile isSpaceChar with
  | '-' :: rest => (jsParseIntCore rest).map (fun v => -(v : Int))
  | '+' :: rest => (jsParseIntCore rest).map (fun v => (v : Int))
  | cs => (jsParseIntCore cs).map (fun v => (v : Int))

-- ## ISO-8601 date strings

/-- Two-digit zero-padded decimal. -/
def pad2 (n : Nat) : List Char := [digitChar (n / 10 % 10), digitChar (n % 10)]

/-- Three-digit zero-padded decimal. -/
def pad3 (n : Nat) : List Char := [digitChar (n / 100 % 10), digitChar (n / 10 % 10), digitChar (n % 10)]

/-- Four-digit zero-padded decimal. -/
def pad4 (n : Nat) : List Char :=
  [digitChar (n / 1000 % 10), digitChar (n / 100 % 10), digitChar (n / 10 % 10), digitChar (n % 10)]

/-- Numeric value of two digit characters. -/
def twoDigits (a b : Char) : Nat := 10 * digitVal a + digitVal b

/-- Numeric value of three digit characters. -/
def threeDigits (a b c : Char) : Nat := 100 * digitVal a + 10 * digitVal b + digitVal c

/-- Numeric value of four digit characters. -/
def fourDigits (a b c d : Char) : Nat :=
  1000 * digitVal a + 100 * digitVal b + 10 * digitVal c + digitVal d

/-- Timestamp of `YYYY-MM-DD` (UTC midnight), when the components form a valid
Gregorian date; otherwise an invalid date. -/
def mkDateOnly (y m d : Nat) : Option Int :=
  if ValidYmd (y : Int) m d then some (daysFromCivil (y : Int) m d * msPerDay) else none

/-- Timestamp of a `toISOString`-shaped date-time, when the components are in
range; otherwise an invalid date. -/
def mkDateTime (y mo d hh mi ss ms : Nat) : Option Int :=
  if ValidYmd (y : Int) mo d ∧ hh ≤ 23 ∧ mi ≤ 59 ∧ ss ≤ 59 then
    some (daysFromCivil (y : Int) mo d * msPerDay +
      ((hh * 3600000 + mi * 60000 + ss * 1000 + ms : Nat) : Int))
  else none

/-- Model of JavaScript `new Date(string).getTime()` on the ISO-8601 subset the
application produces and consumes: date-only `YYYY-MM-DD` (parsed as UTC
midnight, as ECMAScript prescribes for date-only forms) and the
`Date.prototype.toISOString` format `YYYY-MM-DDTHH:MM:SS.mmmZ`.  All other
strings are modelled as invalid dates (`none`, the JS `NaN` timestamp). -/
def parseDate (s : String) : Option Int :=
  match s.data with
  | [y1, y2, y3, y4, '-', m1, m2, '-', d1, d2] =>
    if [y1, y2, y3, y4, m1, m2, d1, d2].all isDigitChar then
      mkDateOnly (fourDigits y1 y2 y3 y4) (twoDigits m1 m2) (twoDigits d1 d2)
    else none
  | [y1, y2, y3, y4, '-', m1, m2, '-', d1, d2, 'T', h1, h2, ':', n1, n2, ':', s1, s2, '.', f1, f2, f3, 'Z'] =>
    if [y1, y2, y3, y4, m1, m2, d1, d2, h1, h2, n1, n2, s1, s2, f1, f2, f3].all isDigitChar then
      mkDateTime (fourDigits y1 y2 y3 y4) (twoDigits m1 m2) (twoDigits d1 d2)
        (twoDigits h1 h2) (twoDigits n1 n2) (twoDigits s1 s2) (threeDigits f1 f2 f3)
    else none
  | _ => none

/-- The `yyyy-MM-dd` rendering of a timestamp, as produced by `date-fns`
`format(new Date(t), 'yyyy-MM-dd')` (local timezone modelled as UTC). -/
def formatYmdChars (t : Int) : List Char :=
  let c := civilFromDays (t / msPerDay)
  pad4 c.1.toNat ++ '-' :: pad2 c.2.1 ++ '-' :: pad2 c.2.2

/-- String form of `formatYmdChars`. -/
def formatYmd (t : Int) : String := ⟨formatYmdChars t⟩

/-- Model of `Date.prototype.toISOString`. -/
def toISOString (t : Int) : String :=
  let c := civilFromDays (t / msPerDay)
  let tod := (t % msPerDay).toNat
  ⟨pad4 c.1.toNat ++ '-' :: pad2 c.2.1 ++ '-' :: pad2 c.2.2 ++
    'T' :: pad2 (tod / 3600000) ++ ':' :: pad2 (tod / 60000 % 60) ++
    ':' :: pad2 (tod / 1000 % 60) ++ '.' :: pad3 (tod % 1000) ++ ['Z']⟩

-- ## Data model (lib/types `LeasingEntry` and page-level state)

/-- One leasing record (`LeasingEntry` of `@/lib/types` as used by the page:
`week` is a number, every other field a string; `notes`/`status` default to
the empty string). -/
structure LeasingEntry where
  id : String
  week : Int
  date : String
  tenantName : String
  businessName : String
  businessType : String
  contact : String
  notes : String
  status : String
deriving DecidableEq

/-- A sortable column (`keyof LeasingEntry`). -/
inductive SortKey where
  | id | week | date | tenantName | businessName | businessType | contact | notes | status
deriving DecidableEq

/-- Sort direction. -/
inductive SortDir where
  | ascending | descending
deriving DecidableEq

/-- The non-null part of the page's `SortConfig` state. -/
structure SortConfig where
  key : SortKey
  direction : SortDir
deriving DecidableEq

/-- `String(entry[key])`: the string representation used by the comparator's
default branch (for `week` it is the number's decimal form). -/
def entryStr (e : LeasingEntry) : SortKey → String
  | .id => e.id
  | .week => jsNumToString e.week
  | .date => e.date
  | .tenantName => e.tenantName
  | .businessName => e.businessName
  | .businessType => e.businessType
  | .contact => e.contact
  | .notes => e.notes
  | .status => e.status

/-- JS `<` between two possibly-NaN numbers: any comparison with NaN is false. -/
def jsNumLtOpt : Option Int → Option Int → Bool
  | some x, some y => decide (x < y)
  | _, _ => false

/-- The three-way comparator of `sortedData` (page.tsx lines 141-168): `week`
compares numerically, `date` compares the timestamps of the parsed values
(`NaN` ties with everything), every other key compares the lower-cased string
representations; the direction swaps the signs. -/
def cmpEntries (cfg : SortConfig) (a b : LeasingEntry) : Int :=
  let neg : Int := if cfg.direction = .ascending then -1 else 1
  let pos : Int := if cfg.direction = .ascending then 1 else -1
  match cfg.key with
  | .week =>
    if a.week < b.week then neg else if b.week < a.week then pos else 0
  | .date =>
    if jsNumLtOpt (parseDate a.date) (parseDate b.date) then neg
    else if jsNumLtOpt (parseDate b.date) (parseDate a.date) then pos
    else 0
  | k =>
    if jsStrLt (jsToLower (entryStr a k)).data (jsToLower (entryStr b k)).data then neg
    else if jsStrLt (jsToLower (entryStr b k)).data (jsToLower (entryStr a k)).data then pos
    else 0

/-- The comparator as a sorting precondition: `cmpEntries cfg a b ≤ 0`. -/
def leEntries (cfg : SortConfig) (a b : LeasingEntry) : Bool :=
  decide (cmpEntries cfg a b ≤ 0)

/-- `sortedData` (page.tsx lines 138-171): with no sort configured the
(copied) filtered sequence is returned unchanged; otherwise it is sorted by
the comparator.  JS `Array.prototype.sort` is stable, modelled by
`List.mergeSort`. -/
def sortedData (filteredData : List LeasingEntry) : Option SortConfig → List LeasingEntry
  | none => filteredData
  | some cfg => filteredData.mergeSort (leEntries cfg)

/-- `handleSort` (page.tsx lines 173-179): the new direction is descending
exactly when the same key was already sorted ascending. -/
def handleSort (sortConfig : Option SortConfig) (key : SortKey) : Option SortConfig :=
  let direction : SortDir :=
    match sortConfig with
    | some c => if c.key = key ∧ c.direction = .ascending then .descending else .ascending
    | none => .ascending
  some ⟨key, direction⟩

/-- `handleSave` (page.tsx lines 195-203): in edit mode replace every stored
entry whose id equals the saved entry's id, else prepend the new entry. -/
def handleSave (entryToEdit : Option LeasingEntry) (entry : LeasingEntry)
    (data : List LeasingEntry) : List LeasingEntry :=
  match entryToEdit with
  | some _ => data.map (fun item => if item.id = entry.id then entry else item)
  | none => entry :: data

-- ## Date-range filter

/-- A picker date by its local calendar components (`getFullYear`, zero-based
`getMonth`, `getDate`). -/
structure PickerDate where
  year : Int
  month : Nat
  day : Nat
deriving DecidableEq

/-- `react-day-picker`'s `DateRange` as held in the page's `date` state. -/
structure JsDateRange where
  rangeFrom : Option PickerDate
  rangeTo : Option PickerDate

/-- `Date.UTC(getFullYear(), getMonth(), getDate())` of a picker date
(JS months are zero-based). -/
def dateUTC (p : PickerDate) : Int := daysFromCivil p.year (p.month + 1) p.day * msPerDay

/-- `new Date(entryDate.setUTCHours(0,0,0,0))`: the timestamp truncated to UTC
midnight. -/
def utcMidnight (t : Int) : Int := t / msPerDay * msPerDay

/-- The date-range predicate of the first filter stage (page.tsx lines
93-110); an entry whose date does not parse never passes a non-empty range
(JS `NaN` comparisons are false). -/
def dateRangePass (range : JsDateRange) (e : LeasingEntry) : Bool :=
  match range.rangeFrom with
  | none => true
  | some f =>
    match parseDate e.date with
    | none => false
    | some t =>
      decide (dateUTC f ≤ utcMidnight t) && decide (utcMidnight t ≤ dateUTC (range.rangeTo.getD f))

/-- `filteredByDate` (page.tsx line 93). -/
def filteredByDate (data : List LeasingEntry) (range : JsDateRange) : List LeasingEntry :=
  data.filter (dateRangePass range)

-- ## Field filter

/-- The page's `LeasingFilter` state: a partial mapping from column to filter
text (`none` models a key absent from the JS object). -/
structure LeasingFilter where
  week : Option String := none
  date : Option String := none
  tenantName : Option String := none
  businessName : Option String := none
  businessType : Option String := none
  contact : Option String := none
  notes : Option String := none
  status : Option String := none

/-- One key's contribution: a key that is absent, or present with an empty
value, imposes no constraint (`if (!filterValue) return true`). -/
def passKey (v : Option String) (pred : String → Bool) : Bool :=
  match v with
  | none => true
  | some s => if s = "" then true else pred s

/-- The per-entry predicate of the second filter stage (page.tsx lines
112-133): `week` matches on the decimal form of the number, `date` matches on
the raw stored string, all other keys match case-insensitively; the active
predicates are combined with AND. -/
def fieldFilterPass (filters : LeasingFilter) (e : LeasingEntry) : Bool :=
  passKey filters.week (fun v => jsIncludes (jsNumToString e.week) v) &&
  passKey filters.date (fun v => jsIncludes e.date v) &&
  passKey filters.tenantName (fun v => jsIncludes (jsToLower e.tenantName) (jsToLower v)) &&
  passKey filters.businessName (fun v => jsIncludes (jsToLower e.businessName) (jsToLower v)) &&
  passKey filters.businessType (fun v => jsIncludes (jsToLower e.businessType) (jsToLower v)) &&
  passKey filters.contact (fun v => jsIncludes (jsToLower e.contact) (jsToLower v)) &&
  passKey filters.notes (fun v => jsIncludes (jsToLower e.notes) (jsToLower v)) &&
  passKey filters.status (fun v => jsIncludes (jsToLower e.status) (jsToLower v))

/-- `finalFiltered` (page.tsx line 112). -/
def finalFiltered (l : List LeasingEntry) (filters : LeasingFilter) : List LeasingEntry :=
  l.filter (fieldFilterPass filters)

-- ## Heap model (for the sort-does-not-mutate property)

/-- A tiny heap of JS arrays: references are allocation indices. -/
structure ArrayHeap where
  mem : Nat → List LeasingEntry
  next : Nat

/-- Contents of the array at reference `r`. -/
def readArr (h : ArrayHeap) (r : Nat) : List LeasingEntry := h.mem r

/-- Allocate a fresh array with contents `v` (the spread `[...xs]`). -/
def allocArr (h : ArrayHeap) (v : List LeasingEntry) : ArrayHeap × Nat :=
  (⟨fun r => if r = h.next then v else h.mem r, h.next + 1⟩, h.next)

/-- In-place `Array.prototype.sort` of the array at `r`. -/
def sortInPlace (h : ArrayHeap) (r : Nat) (cfg : SortConfig) : ArrayHeap :=
  ⟨fun x => if x = r then (h.mem r).mergeSort (leEntries cfg) else h.mem x, h.next⟩

/-- `sortedData` as it executes on the heap: `[...filteredData]` allocates a
copy, and only the copy is ever sorted in place; the result is the heap plus
the reference of the returned array. -/
def sortedDataOnHeap (h : ArrayHeap) (filteredData : Nat) (cfg : Option SortConfig) :
    ArrayHeap × Nat :=
  let alloc := allocArr h (readArr h filteredData)
  match cfg with
  | none => alloc
  | some c => (sortInPlace alloc.1 alloc.2 c, alloc.2)

-- ## CSV serialization (Papa.unparse model)

/-- Whether Papa has to quote a field: it contains the delimiter, a quote or a
line break. -/
def needsQuote (s : String) : Bool :=
  s.data.any (fun c => c = ',' ∨ c = '"' ∨ c = '\r' ∨ c = '\n')

/-- Double every quote character (the CSV escape inside a quoted field). -/
def escQuote : List Char → List Char
  | [] => []
  | '"' :: cs => '"' :: '"' :: escQuote cs
  | c :: cs => c :: escQuote cs

/-- Serialize one field, quoting when necessary. -/
def unparseField (s : String) : List Char :=
  if needsQuote s then '"' :: (escQuote s.data ++ ['"']) else s.data

/-- Serialize one record: fields joined by commas. -/
def unparseRecord (r : List String) : List Char :=
  List.intercalate [','] (r.map unparseField)

/-- `Papa.unparse`: records joined by CRLF, no trailing newline. -/
def csvUnparse (rs : List (List String)) : String :=
  ⟨List.intercalate ['\r', '\n'] (rs.map unparseRecord)⟩

-- ## CSV parsing (Papa.parse model)

/-- Turn the accumulated (reversed) field and record into a finished record. -/
def finishRec (record : List String) (acc : List Char) : List String :=
  ((⟨acc.reverse⟩ : String) :: record).reverse

/-- Scanner mode: inside an unquoted field, inside a quoted field, or right
after a closing quote. -/
inductive CsvMode where
  | plain | quoted | closed
deriving DecidableEq

/-- The CSV scanner: one character at a time over the input, with the current
field accumulated in reverse in `acc` and the current record's finished fields
in reverse in `record`.  A doubled quote inside a quoted field is an escaped
quote; a `"` opening a fresh unquoted field enters quoted mode; after a
closing quote stray characters are skipped until a delimiter; both `\r\n`,
`\r` and `\n` end a record, and a trailing newline produces no extra
record. -/
def csvMachine (mode : CsvMode) (acc : List Char) (record : List String) :
    List Char → List (List String)
  | [] => [finishRec record acc]
  | c :: rest =>
    match mode, c, rest with
    | .quoted, '"', '"' :: rest2 => csvMachine .quoted ('"' :: acc) record rest2
    | .quoted, '"', rest2 => csvMachine .closed acc record rest2
    | .quoted, c2, rest2 => csvMachine .quoted (c2 :: acc) record rest2
    | _, ',', rest2 => csvMachine .plain [] ((⟨acc.reverse⟩ : String) :: record) rest2
    | _, '\r', '\n' :: rest2 =>
      finishRec record acc ::
        (match rest2 with
         | [] => []
         | c3 :: rest3 => csvMachine .plain [] [] (c3 :: rest3))
    | _, '\r', rest2 =>
      finishRec record acc ::
        (match rest2 with
         | [] => []
         | c3 :: rest3 => csvMachine .plain [] [] (c3 :: rest3))
    | _, '\n', rest2 =>
      finishRec record acc ::
        (match rest2 with
         | [] => []
         | c3 :: rest3 => csvMachine .plain [] [] (c3 :: rest3))
    | .plain, '"', rest2 =>
      if acc.isEmpty then csvMachine .quoted [] record rest2
      else csvMachine .plain ('"' :: acc) record rest2
    | .closed, _, rest2 => csvMachine .closed acc record rest2
    | .plain, c2, rest2 => csvMachine .plain (c2 :: acc) record rest2

/-- All records of a CSV text; empty input yields no records. -/
def csvStart (cs : List Char) : List (List String) :=
  match cs with
  | [] => []
  | c :: rest => csvMachine .plain [] [] (c :: rest)

/-- `Papa.parse` with `skipEmptyLines: true`: parse all records and drop the
records produced by empty lines. -/
def papaParse (text : String) : List (List String) :=
  (csvStart text.data).filter (fun r => r ≠ [""])

-- ## Row objects and the upload pipeline

/-- A parsed CSV row keyed by the app's header names; a column that is absent
from the file behaves like the empty string (both are JS-falsy and neither
parses as a date or number). -/
structure CsvRow where
  id : String := ""
  week : String := ""
  date : String := ""
  tenantName : String := ""
  businessName : String := ""
  businessType : String := ""
  contact : String := ""
  notes : String := ""
  status : String := ""
deriving DecidableEq

/-- The export header (page.tsx lines 252-255). -/
def csvHeaders : List String :=
  ["id", "week", "date", "tenantName", "businessName", "businessType", "contact", "notes", "status"]

/-- Look a named column up in a parsed record, given the file's header row. -/
def fieldOf (hdr rec : List String) (name : String) : String :=
  match hdr.findIdx? (fun h => h = name) with
  | some i => rec.getD i ""
  | none => ""

/-- Build the row object of one record (Papa's `header: true` mode). -/
def rowOfRecord (hdr rec : List String) : CsvRow :=
  ⟨fieldOf hdr rec "id", fieldOf hdr rec "week", fieldOf hdr rec "date",
   fieldOf hdr rec "tenantName", fieldOf hdr rec "businessName",
   fieldOf hdr rec "businessType", fieldOf hdr rec "contact",
   fieldOf hdr rec "notes", fieldOf hdr rec "status"⟩

/-- All data rows of a CSV text (first record is the header). -/
def rowsOf (text : String) : List CsvRow :=
  match papaParse text with
  | [] => []
  | hdr :: recs => recs.map (rowOfRecord hdr)

/-- Minimal JSON string escaping (quote, backslash and the common control escapes). -/
def jsonEscape : List Char → List Char
  | [] => []
  | '"' :: cs => '\\' :: '"' :: jsonEscape cs
  | '\\' :: cs => '\\' :: '\\' :: jsonEscape cs
  | '\n' :: cs => '\\' :: 'n' :: jsonEscape cs
  | '\r' :: cs => '\\' :: 'r' :: jsonEscape cs
  | '\t' :: cs => '\\' :: 't' :: jsonEscape cs
  | c :: cs => c :: jsonEscape cs

/-- One `"key":"value"` member of `JSON.stringify(row)`. -/
def jsonMember (key value : String) : String :=
  "\"" ++ key ++ "\":\"" ++ (⟨jsonEscape value.data⟩ : String) ++ "\""

/-- `JSON.stringify(row)` for a row object. -/
def jsonStringifyRow (r : CsvRow) : String :=
  "\x7b" ++ jsonMember "id" r.id ++ "," ++ jsonMember "week" r.week ++ "," ++
    jsonMember "date" r.date ++ "," ++ jsonMember "tenantName" r.tenantName ++ "," ++
    jsonMember "businessName" r.businessName ++ "," ++ jsonMember "businessType" r.businessType ++ "," ++
    jsonMember "contact" r.contact ++ "," ++ jsonMember "notes" r.notes ++ "," ++
    jsonMember "status" r.status ++ "\x7d"

/-- Validate and coerce one uploaded row (page.tsx lines 294-315), with
`freshId` standing for the `uuidv4()` drawn when the row has no id.  The
error strings are the ones thrown in `handleFileUpload`. -/
def parseRowEntry (r : CsvRow) (freshId : String) : Except String LeasingEntry :=
  if r.date = "" ∨ r.tenantName = "" then
    .error ("Row is missing required fields (date, tenantName): " ++ jsonStringifyRow r)
  else
    match parseDate r.date with
    | none => .error ("Invalid date format for row: " ++ jsonStringifyRow r)
    | some t =>
      match jsParseInt r.week with
      | none => .error ("Invalid week format for row: " ++ jsonStringifyRow r)
      | some w =>
        .ok ⟨if r.id = "" then freshId else r.id, w, toISOString t,
          r.tenantName, r.businessName, r.businessType, r.contact, r.notes, r.status⟩

/-- Map the rows in order, aborting at the first invalid row (the `throw`
inside `results.data.map`); `supply i` is the fresh id available to row `i`. -/
def parseRowsFrom (supply : Nat → String) : Nat → List CsvRow → Except String (List LeasingEntry)
  | _, [] => .ok []
  | i, r :: rest =>
    match parseRowEntry r (supply i) with
    | .error e => .error e
    | .ok entry =>
      match parseRowsFrom supply (i + 1) rest with
      | .error e => .error e
      | .ok l => .ok (entry :: l)

/-- The whole row list, starting at index 0. -/
def parseRows (rows : List CsvRow) (supply : Nat → String) : Except String (List LeasingEntry) :=
  parseRowsFrom supply 0 rows

/-- The store transition of `handleFileUpload` (page.tsx lines 285-346): on
success `setData(uploadedData)` replaces the store, on error the store is not
touched; the second component is the error message surfaced in the toast. -/
def uploadStore (store : List LeasingEntry) (rows : List CsvRow) (supply : Nat → String) :
    List LeasingEntry × Option String :=
  match parseRows rows supply with
  | .ok uploadedData => (uploadedData, none)
  | .error e => (store, some e)

/-- `handleFileUpload` from the raw file text: Papa parses with headers, then
the rows are validated. -/
def uploadStoreFromText (store : List LeasingEntry) (text : String) (supply : Nat → String) :
    List LeasingEntry × Option String :=
  uploadStore store (rowsOf text) supply

-- ## CSV export (handleDownload)

/-- The record written for one entry: the entry's fields in header order with
the date reformatted to `yyyy-MM-dd` (page.tsx lines 258-261). -/
def exportRecord (e : LeasingEntry) (t : Int) : List String :=
  [e.id, jsNumToString e.week, formatYmd t, e.tenantName, e.businessName,
   e.businessType, e.contact, e.notes, e.status]

/-- `handleDownload` (page.tsx lines 251-279): the CSV text and the download
file name, given the current sorted sequence and the current time `now`.
`date-fns` `format` throws on an invalid date, modelled as `none`. -/
def handleDownload (entries : List LeasingEntry) (now : Int) : Option (String × String) :=
  match entries.mapM (fun e => (parseDate e.date).map (exportRecord e)) with
  | none => none
  | some recs =>
    some (csvUnparse (csvHeaders :: recs), "leasing_report_" ++ formatYmd now ++ ".csv")

/-- Sample entries for concrete instantiations. -/
def sampleEntry1 : LeasingEntry := ⟨"a", 1, "d", "t", "", "", "", "", ""⟩

def sampleEntry2 : LeasingEntry := ⟨"a", 2, "d2", "t2", "", "", "", "", ""⟩

def sampleEntry3 : LeasingEntry := ⟨"b", 3, "d3", "t3", "", "", "", "", ""⟩

-- ## Derived forms used by the import / export / sort analysis

/-- Whether one uploaded row passes all three validations of
`handleFileUpload`. -/
def goodRow (r : CsvRow) : Bool :=
  !(r.date == "" || r.tenantName == "") && (parseDate r.date).isSome && (jsParseInt r.week).isSome

/-- The error message thrown for an invalid row (the first failing check). -/
def rowErrMsg (r : CsvRow) : String :=
  if r.date = "" ∨ r.tenantName = "" then
    "Row is missing required fields (date, tenantName): " ++ jsonStringifyRow r
  else if (parseDate r.date).isNone then
    "Invalid date format for row: " ++ jsonStringifyRow r
  else
    "Invalid week format for row: " ++ jsonStringifyRow r

/-- The entry a valid row parses to, given the fresh id available to it. -/
def parsedEntry (r : CsvRow) (freshId : String) : LeasingEntry :=
  ⟨if r.id = "" then freshId else r.id, (jsParseInt r.week).getD 0,
   toISOString ((parseDate r.date).getD 0), r.tenantName, r.businessName, r.businessType,
   r.contact, r.notes, r.status⟩

/-- The collection a fully valid upload replaces the store with. -/
def parsedEntries (supply : Nat → String) : Nat → List CsvRow → List LeasingEntry
  | _, [] => []
  | i, r :: rest => parsedEntry r (supply i) :: parsedEntries supply (i + 1) rest

/-- What one entry becomes after a CSV export followed by a re-import: the id
is regenerated when empty, and the date collapses to the UTC midnight of its
calendar day. -/
def roundTripEntry (e : LeasingEntry) (freshId : String) : LeasingEntry :=
  ⟨if e.id = "" then freshId else e.id, e.week,
   toISOString (utcMidnight ((parseDate e.date).getD 0)),
   e.tenantName, e.businessName, e.businessType, e.contact, e.notes, e.status⟩

/-- `roundTripEntry` over a collection, with indexed fresh ids. -/
def roundTripEntries (supply : Nat → String) : Nat → List LeasingEntry → List LeasingEntry
  | _, [] => []
  | i, e :: rest => roundTripEntry e (supply i) :: roundTripEntries supply (i + 1) rest

/-- A conveniently named id source for concrete instantiations. -/
def sampleSupply : Nat → String := fun _ => "generated-id"

/-- The timestamp key the comparator would use for a stored date, with the
JS `NaN` collapsed to 0: used only to totalize the date comparator on
entries whose dates all parse. -/
def entryTimeKey (e : LeasingEntry) : Int := (parseDate e.date).getD 0

/-- The strict per-key comparison underlying `cmpEntries`. -/
def entryLt (k : SortKey) (a b : LeasingEntry) : Bool :=
  match k with
  | .week => decide (a.week < b.week)
  | .date => jsNumLtOpt (parseDate a.date) (parseDate b.date)
  | k => jsStrLt (jsToLower (entryStr a k)).data (jsToLower (entryStr b k)).data

/-- `entryLt` with the date key totalized through `entryTimeKey`; it agrees
with `entryLt` whenever both dates parse. -/
def entryLtT (k : SortKey) (a b : LeasingEntry) : Bool :=
  match k with
  | .week => decide (a.week < b.week)
  | .date => decide (entryTimeKey a < entryTimeKey b)
  | k => jsStrLt (jsToLower (entryStr a k)).data (jsToLower (entryStr b k)).data

/-- The totalized sorting precondition corresponding to `leEntries`. -/
def leEntriesT (cfg : SortConfig) (a b : LeasingEntry) : Bool :=
  match cfg.direction with
  | .ascending => !entryLtT cfg.key b a
  | .descending => !entryLtT cfg.key a b

/-- A concrete entry whose date is a valid yyyy-MM-dd string. -/
def datedEntry1 : LeasingEntry := ⟨"a", 1, "2025-06-01", "t", "", "", "", "", ""⟩

/-- A second concrete entry with a later valid date. -/
def datedEntry2 : LeasingEntry := ⟨"b", 2, "2025-06-02", "u", "", "", "", "", ""⟩

/-- An entry whose date is a full ISO date-time string, the shape `handleSave`
stores for new entries. -/
def dtEntry : LeasingEntry := ⟨"a", 1, "2025-06-01T15:30:00.000Z", "t", "", "", "", "", ""⟩
-- ## Calendar correctness

theorem yoeOfDoe_yearStart (k : Nat) (hk : k < 400) :
    yoeOfDoe (yearStartDoe k) = k ∧ yoeOfDoe (yearStartDoe k + yoeLen k - 1) = k := by
  revert k
  decide

theorem yearStart_add_len_le (k : Nat) (hk : k < 400) :
    yearStartDoe k + yoeLen k ≤ 146097 := by
  revert k
  decide

theorem yearStart_succ (k : Nat) (hk : k < 399) :
    yearStartDoe (k + 1) = yearStartDoe k + yoeLen k := by
  revert k
  decide

theorem yearStart_last : yearStartDoe 399 + yoeLen 399 = 146097 := by decide

theorem yoeLen_pos (k : Nat) : 0 < yoeLen k := by
  unfold yoeLen; split <;> omega

theorem gNum_step (x : Nat) (hx : x < 146096) :
    x - x / 1460 + x / 36524 - x / 146096 ≤
      (x+1) - (x+1) / 1460 + (x+1) / 36524 - (x+1) / 146096 := by
  omega

theorem gNum_mono (x y : Nat) (hxy : x ≤ y) (hy : y ≤ 146096) :
    x - x / 1460 + x / 36524 - x / 146096 ≤ y - y / 1460 + y / 36524 - y / 146096 := by
  induction y with
  | zero => omega
  | succ n ih =>
    rcases Nat.lt_or_ge x (n+1) with h | h
    · exact le_trans (ih (by omega) (by omega)) (gNum_step n (by omega))
    · omega

theorem yoeOfDoe_mono (x y : Nat) (hxy : x ≤ y) (hy : y ≤ 146096) :
    yoeOfDoe x ≤ yoeOfDoe y := by
  unfold yoeOfDoe
  exact Nat.div_le_div_right (gNum_mono x y hxy hy)

theorem yoeOfDoe_eq (k doe : Nat) (hk : k < 400)
    (h1 : yearStartDoe k ≤ doe) (h2 : doe < yearStartDoe k + yoeLen k) :
    yoeOfDoe doe = k := by
  obtain ⟨e1, e2⟩ := yoeOfDoe_yearStart k hk
  have hub : yearStartDoe k + yoeLen k ≤ 146097 := yearStart_add_len_le k hk
  have hlenpos := yoeLen_pos k
  have m1 : yoeOfDoe (yearStartDoe k) ≤ yoeOfDoe doe :=
    yoeOfDoe_mono _ _ h1 (by omega)
  have m2 : yoeOfDoe doe ≤ yoeOfDoe (yearStartDoe k + yoeLen k - 1) :=
    yoeOfDoe_mono _ _ (by omega) (by omega)
  omega

theorem doe_coverage (doe : Nat) (h : doe < 146097) :
    ∃ k, k < 400 ∧ yearStartDoe k ≤ doe ∧ doe < yearStartDoe k + yoeLen k := by
  induction doe with
  | zero =>
    refine ⟨0, by omega, by decide, ?_⟩
    have := yoeLen_pos 0
    have h0 : yearStartDoe 0 = 0 := by decide
    omega
  | succ n ih =>
    obtain ⟨k, hk, h1, h2⟩ := ih (by omega)
    rcases Nat.lt_or_ge (n+1) (yearStartDoe k + yoeLen k) with hlt | hge
    · exact ⟨k, hk, by omega, hlt⟩
    · have heq : n + 1 = yearStartDoe k + yoeLen k := by omega
      rcases Nat.lt_or_ge k 399 with hk399 | hk399
      · refine ⟨k + 1, by omega, ?_, ?_⟩
        · rw [yearStart_succ k hk399]; omega
        · rw [yearStart_succ k hk399]
          have := yoeLen_pos (k+1)
          omega
      · exfalso
        have hk' : k = 399 := by omega
        rw [hk'] at heq
        have := yearStart_last
        omega

theorem doy_split (doy : Nat) (h : doy ≤ 365) :
    (5 * doy + 2) / 153 ≤ 11 ∧
    (153 * ((5 * doy + 2) / 153) + 2) / 5 ≤ doy ∧
    1 ≤ doy - (153 * ((5 * doy + 2) / 153) + 2) / 5 + 1 ∧
    (153 * ((5 * doy + 2) / 153) + 2) / 5 + (doy - (153 * ((5 * doy + 2) / 153) + 2) / 5 + 1) - 1 = doy ∧
    doy - (153 * ((5 * doy + 2) / 153) + 2) / 5 + 1 ≤ 31 ∧
    ((5 * doy + 2) / 153 = 11 → doy - (153 * ((5 * doy + 2) / 153) + 2) / 5 + 1 ≤ 29) ∧
    ((5 * doy + 2) / 153 = 1 ∨ (5 * doy + 2) / 153 = 3 ∨ (5 * doy + 2) / 153 = 6 ∨ (5 * doy + 2) / 153 = 8
      → doy - (153 * ((5 * doy + 2) / 153) + 2) / 5 + 1 ≤ 30) ∧
    (((5 * doy + 2) / 153 = 11 ∧ doy - (153 * ((5 * doy + 2) / 153) + 2) / 5 + 1 = 29) ↔ doy = 365) := by
  revert doy
  decide

theorem doy_join (m d : Nat) (hm1 : 1 ≤ m) (hm2 : m ≤ 12) (hd1 : 1 ≤ d) (hd31 : d ≤ 31)
    (hdm : d ≤ (if m = 2 then 29 else if m = 4 ∨ m = 6 ∨ m = 9 ∨ m = 11 then 30 else 31)) :
    (153 * (if 2 < m then m - 3 else m + 9) + 2) / 5 + d - 1 ≤ 365 ∧
    (5 * ((153 * (if 2 < m then m - 3 else m + 9) + 2) / 5 + d - 1) + 2) / 153 = (if 2 < m then m - 3 else m + 9) ∧
    ((153 * (if 2 < m then m - 3 else m + 9) + 2) / 5 + d - 1) - (153 * (if 2 < m then m - 3 else m + 9) + 2) / 5 + 1 = d ∧
    ((153 * (if 2 < m then m - 3 else m + 9) + 2) / 5 + d - 1 = 365 ↔ (m = 2 ∧ d = 29)) := by
  revert d
  revert m
  decide

theorem isLeap_era (era : Int) (yoe : Nat) (hy : yoe < 400) :
    (isLeap (era * 400 + (yoe : Int) + 1) = true) ↔ (leapYoe yoe = true) := by
  unfold isLeap leapYoe
  simp only [Bool.or_eq_true, Bool.and_eq_true, beq_iff_eq, bne_iff_ne, ne_eq]
  omega

theorem yoeLen_le (k : Nat) : yoeLen k ≤ 366 := by
  unfold yoeLen; split <;> omega

theorem yoeLen_eq_366 (k : Nat) (h : yoeLen k = 366) : leapYoe k = true := by
  unfold yoeLen at h; split at h
  · assumption
  · omega

theorem leapYoe_len (k : Nat) (h : leapYoe k = true) : yoeLen k = 366 := by
  unfold yoeLen; split <;> simp_all


theorem civilFromDays_spec (n : Int) :
    ValidYmd (cfdY n) (cfdM n) (cfdD n) ∧ daysFromCivil (cfdY n) (cfdM n) (cfdD n) = n := by
  have hdoeDef : cfdDoe n = ((n + 719468) % 146097).toNat := rfl
  have hdoeLt : cfdDoe n < 146097 := by rw [hdoeDef]; omega
  obtain ⟨k, hk, hk1, hk2⟩ := doe_coverage (cfdDoe n) hdoeLt
  have hyoe : cfdYoe n = k := yoeOfDoe_eq k (cfdDoe n) hk hk1 hk2
  have hdoyDef : cfdDoy n = cfdDoe n - yearStartDoe k := by
    unfold cfdDoy; rw [hyoe]
  have hlen : yoeLen k ≤ 366 := yoeLen_le k
  have hdoyLe : cfdDoy n ≤ 365 := by omega
  obtain ⟨hs1, hs2, hs3, hs4, hs5, hs6, hs7, hs8⟩ := doy_split (cfdDoy n) hdoyLe
  have hmp11 : cfdMp n ≤ 11 := hs1
  have hd1 : 1 ≤ cfdD n := hs3
  have hrec : (153 * cfdMp n + 2) / 5 + cfdD n - 1 = cfdDoy n := hs4
  have hd31 : cfdD n ≤ 31 := hs5
  have hfeb : cfdMp n = 11 → cfdD n ≤ 29 := hs6
  have h30 : cfdMp n = 1 ∨ cfdMp n = 3 ∨ cfdMp n = 6 ∨ cfdMp n = 8 → cfdD n ≤ 30 := hs7
  have hfebiff : (cfdMp n = 11 ∧ cfdD n = 29) ↔ cfdDoy n = 365 := hs8
  clear hs1 hs2 hs3 hs4 hs5 hs6 hs7 hs8
  have hm12 : (cfdMp n < 10 ∧ cfdM n = cfdMp n + 3) ∨ (10 ≤ cfdMp n ∧ cfdM n = cfdMp n - 9) := by
    unfold cfdM
    rcases Nat.lt_or_ge (cfdMp n) 10 with h | h
    · left; exact ⟨h, if_pos h⟩
    · right; exact ⟨h, if_neg (by omega)⟩
  have hleapd : cfdMp n = 11 → cfdD n = 29 → isLeap (cfdY n) = true := by
    intro hmp11' hd29
    have hdoy365 : cfdDoy n = 365 := hfebiff.mp ⟨hmp11', hd29⟩
    have h366 : yoeLen k = 366 := by omega
    have hly : leapYoe k = true := yoeLen_eq_366 k h366
    have hm2 : cfdM n ≤ 2 := by rcases hm12 with ⟨a, b⟩ | ⟨a, b⟩ <;> omega
    have hyDef : cfdY n = (n + 719468) / 146097 * 400 + (k : Int) + 1 := by
      unfold cfdY; rw [hyoe, if_pos hm2]
    rw [hyDef]
    exact (isLeap_era ((n + 719468) / 146097) k hk).mpr hly
  refine ⟨⟨?_, ?_, hd1, ?_⟩, ?_⟩
  · rcases hm12 with ⟨a, b⟩ | ⟨a, b⟩ <;> omega
  · rcases hm12 with ⟨a, b⟩ | ⟨a, b⟩ <;> omega
  · -- cfdD n ≤ daysInMonth (cfdY n) (cfdM n)
    unfold daysInMonth
    rcases hm12 with ⟨hlt, he⟩ | ⟨hlt, he⟩
    · have hne2 : ¬ cfdM n = 2 := by omega
      rw [if_neg hne2]
      split
      · exact h30 (by omega)
      · exact hd31
    · have hmp1011 : cfdMp n = 10 ∨ cfdMp n = 11 := by omega
      rcases hmp1011 with h10 | h11
      · have hne2 : ¬ cfdM n = 2 := by omega
        rw [if_neg hne2, if_neg (by omega)]
        exact hd31
      · have he2 : cfdM n = 2 := by omega
        rw [if_pos he2]
        have hd29 : cfdD n ≤ 29 := hfeb h11
        split
        · exact hd29
        next hno =>
          rcases Nat.lt_or_ge (cfdD n) 29 with hlt29 | hge29
          · omega
          · exact absurd (hleapd h11 (by omega)) hno
  · -- reconstruction
    simp only [daysFromCivil]
    have hy2 : cfdY n - (if cfdM n ≤ 2 then 1 else 0) = (n + 719468) / 146097 * 400 + (k : Int) := by
      unfold cfdY; rw [hyoe]; ring
    rw [hy2]; clear hy2
    have hdiv : ((n + 719468) / 146097 * 400 + (k : Int)) / 400 = (n + 719468) / 146097 := by
      clear hleapd hm12; omega
    have hmod : (((n + 719468) / 146097 * 400 + (k : Int)) % 400).toNat = k := by
      clear hleapd hm12 hdiv; omega
    rw [hdiv, hmod]; clear hdiv hmod
    have hmp2 : (if 2 < cfdM n then cfdM n - 3 else cfdM n + 9) = cfdMp n := by
      rcases hm12 with ⟨a, b⟩ | ⟨a, b⟩
      · rw [if_pos (by omega)]; omega
      · rw [if_neg (by omega)]; omega
    rw [hmp2]; clear hmp2
    rw [hrec]
    clear hleapd hm12
    have hdoe2 : yearStartDoe k + cfdDoy n = cfdDoe n := by omega
    rw [hdoe2]
    omega

theorem civilFromDays_core (era : Int) (yoe mp d doy : Nat) (n : Int)
    (hyoe : yoe < 400) (hmp : mp ≤ 11) (hd1 : 1 ≤ d)
    (hdoyLt : doy < yoeLen yoe)
    (hmpRec : (5 * doy + 2) / 153 = mp)
    (hdRec : doy - (153 * mp + 2) / 5 + 1 = d)
    (hn : n = era * 146097 + ((yearStartDoe yoe + doy : Nat) : Int) - 719468) :
    cfdDoe n = yearStartDoe yoe + doy ∧ cfdYoe n = yoe ∧ cfdDoy n = doy ∧
    cfdMp n = mp ∧ cfdD n = d ∧
    cfdM n = (if mp < 10 then mp + 3 else mp - 9) ∧
    cfdY n = era * 400 + (yoe : Int) +
      (if (if mp < 10 then mp + 3 else mp - 9) ≤ 2 then 1 else 0) := by
  have hub : yearStartDoe yoe + yoeLen yoe ≤ 146097 := yearStart_add_len_le yoe hyoe
  have hdoeLt : yearStartDoe yoe + doy < 146097 := by omega
  have h1 : cfdDoe n = yearStartDoe yoe + doy := by
    show ((n + 719468) % 146097).toNat = yearStartDoe yoe + doy
    rw [hn]; omega
  have h2 : cfdYoe n = yoe := by
    show yoeOfDoe (cfdDoe n) = yoe
    rw [h1]
    exact yoeOfDoe_eq yoe _ hyoe (by omega) (by omega)
  have h3 : cfdDoy n = doy := by
    show cfdDoe n - yearStartDoe (cfdYoe n) = doy
    rw [h1, h2]; omega
  have h4 : cfdMp n = mp := by
    show (5 * cfdDoy n + 2) / 153 = mp
    rw [h3]; exact hmpRec
  have h5 : cfdD n = d := by
    show cfdDoy n - (153 * cfdMp n + 2) / 5 + 1 = d
    rw [h4, h3]; exact hdRec
  have h6 : cfdM n = (if mp < 10 then mp + 3 else mp - 9) := by
    show (if cfdMp n < 10 then cfdMp n + 3 else cfdMp n - 9) = _
    rw [h4]
  have hdiv : (n + 719468) / 146097 = era := by rw [hn]; omega
  have h7 : cfdY n = era * 400 + (yoe : Int) +
      (if (if mp < 10 then mp + 3 else mp - 9) ≤ 2 then 1 else 0) := by
    show (n + 719468) / 146097 * 400 + (cfdYoe n : Int) + (if cfdM n ≤ 2 then 1 else 0) = _
    rw [hdiv, h2, h6]
  exact ⟨h1, h2, h3, h4, h5, h6, h7⟩

theorem daysFromCivil_spec (y : Int) (m d : Nat) (h : ValidYmd y m d) :
    civilFromDays (daysFromCivil y m d) = (y, m, d) := by
  obtain ⟨hm1, hm2, hd1, hdm⟩ := h
  unfold daysInMonth at hdm
  have hdmFacts : d ≤ 31 ∧
      d ≤ (if m = 2 then 29 else if m = 4 ∨ m = 6 ∨ m = 9 ∨ m = 11 then 30 else 31) ∧
      (m = 2 → d = 29 → isLeap y = true) := by
    by_cases h2 : m = 2
    · rw [if_pos h2] at hdm ⊢
      by_cases hl : isLeap y = true
      · rw [if_pos hl] at hdm
        exact ⟨by omega, by omega, fun _ _ => hl⟩
      · rw [if_neg hl] at hdm
        exact ⟨by omega, by omega, fun _ hd29 => by omega⟩
    · rw [if_neg h2] at hdm ⊢
      by_cases h30 : m = 4 ∨ m = 6 ∨ m = 9 ∨ m = 11
      · rw [if_pos h30] at hdm ⊢
        exact ⟨by omega, hdm, fun hx => absurd hx h2⟩
      · rw [if_neg h30] at hdm ⊢
        exact ⟨hdm, hdm, fun hx => absurd hx h2⟩
  obtain ⟨hd31, hdm', hleap29⟩ := hdmFacts
  obtain ⟨hj1, hj2, hj3, hj4⟩ := doy_join m d hm1 hm2 hd1 hd31 hdm'
  rcases Nat.lt_or_ge 2 m with hm3 | hm3
  · -- March .. December: month shift mp = m - 3
    have hmp : (if 2 < m then m - 3 else m + 9) = m - 3 := if_pos hm3
    rw [hmp] at hj1 hj2 hj3 hj4
    obtain ⟨era, hera⟩ : ∃ e, y / 400 = e := ⟨_, rfl⟩
    obtain ⟨yoe, hyoe⟩ : ∃ w, (y % 400).toNat = w := ⟨_, rfl⟩
    have hyoeLt : yoe < 400 := by omega
    have hlen : 365 ≤ yoeLen yoe := by unfold yoeLen; split <;> omega
    have hdoyLt : (153 * (m - 3) + 2) / 5 + d - 1 < yoeLen yoe := by omega
    have hn : daysFromCivil y m d =
        era * 146097 + ((yearStartDoe yoe + ((153 * (m - 3) + 2) / 5 + d - 1) : Nat) : Int) - 719468 := by
      simp only [daysFromCivil]
      rw [if_neg (show ¬ m ≤ 2 from by omega), hmp, sub_zero, hera, hyoe]
    obtain ⟨hc1, hc2, hc3, hc4, hc5, hc6, hc7⟩ :=
      civilFromDays_core era yoe (m - 3) d ((153 * (m - 3) + 2) / 5 + d - 1)
        (daysFromCivil y m d) hyoeLt (by omega) hd1 hdoyLt hj2 hj3 hn
    have hM : cfdM (daysFromCivil y m d) = m := by
      rw [hc6, if_pos (show m - 3 < 10 from by omega)]
      omega
    have hY : cfdY (daysFromCivil y m d) = y := by
      rw [hc7, if_pos (show m - 3 < 10 from by omega),
        if_neg (show ¬ m - 3 + 3 ≤ 2 from by omega)]
      omega
    calc civilFromDays (daysFromCivil y m d)
        = (cfdY (daysFromCivil y m d), cfdM (daysFromCivil y m d), cfdD (daysFromCivil y m d)) := rfl
      _ = (y, m, d) := by rw [hM, hY, hc5]
  · -- January, February: month shift mp = m + 9
    have hmp : (if 2 < m then m - 3 else m + 9) = m + 9 := if_neg (by omega)
    rw [hmp] at hj1 hj2 hj3 hj4
    obtain ⟨era, hera⟩ : ∃ e, (y - 1) / 400 = e := ⟨_, rfl⟩
    obtain ⟨yoe, hyoe⟩ : ∃ w, ((y - 1) % 400).toNat = w := ⟨_, rfl⟩
    have hyoeLt : yoe < 400 := by omega
    have hyrec : y = era * 400 + (yoe : Int) + 1 := by omega
    have hlen : 365 ≤ yoeLen yoe := by unfold yoeLen; split <;> omega
    have hdoyLt : (153 * (m + 9) + 2) / 5 + d - 1 < yoeLen yoe := by
      rcases Nat.lt_or_ge ((153 * (m + 9) + 2) / 5 + d - 1) 365 with hx | hx
      · omega
      · have h365 : (153 * (m + 9) + 2) / 5 + d - 1 = 365 := by omega
        have hmd : m = 2 ∧ d = 29 := hj4.mp h365
        have hleapy : isLeap y = true := hleap29 hmd.1 hmd.2
        rw [hyrec] at hleapy
        have hly : leapYoe yoe = true := (isLeap_era era yoe hyoeLt).mp hleapy
        have h366 : yoeLen yoe = 366 := leapYoe_len yoe hly
        omega
    have hn : daysFromCivil y m d =
        era * 146097 + ((yearStartDoe yoe + ((153 * (m + 9) + 2) / 5 + d - 1) : Nat) : Int) - 719468 := by
      simp only [daysFromCivil]
      rw [if_pos (show m ≤ 2 from by omega), hmp, hera, hyoe]
    obtain ⟨hc1, hc2, hc3, hc4, hc5, hc6, hc7⟩ :=
      civilFromDays_core era yoe (m + 9) d ((153 * (m + 9) + 2) / 5 + d - 1)
        (daysFromCivil y m d) hyoeLt (by omega) hd1 hdoyLt hj2 hj3 hn
    have hM : cfdM (daysFromCivil y m d) = m := by
      rw [hc6, if_neg (show ¬ m + 9 < 10 from by omega)]
      omega
    have hY : cfdY (daysFromCivil y m d) = y := by
      rw [hc7, if_neg (show ¬ m + 9 < 10 from by omega),
        if_pos (show m + 9 - 9 ≤ 2 from by omega)]
      omega
    calc civilFromDays (daysFromCivil y m d)
        = (cfdY (daysFromCivil y m d), cfdM (daysFromCivil y m d), cfdD (daysFromCivil y m d)) := rfl
      _ = (y, m, d) := by rw [hM, hY, hc5]

-- ## Decimal digits

theorem digitChar_isDigit (k : Nat) (h : k ≤ 9) : isDigitChar (digitChar k) = true := by
  interval_cases k <;> decide

theorem digitVal_digitChar (k : Nat) (h : k ≤ 9) : digitVal (digitChar k) = k := by
  interval_cases k <;> decide

theorem digitChar_not_space (k : Nat) : isSpaceChar (digitChar k) = false := by
  unfold digitChar
  split <;> decide

theorem digitChar_ne_dash (k : Nat) : digitChar k ≠ '-' := by
  unfold digitChar
  split <;> decide

theorem digitChar_ne_plus (k : Nat) : digitChar k ≠ '+' := by
  unfold digitChar
  split <;> decide

theorem natDigitsAux_spec (n : Nat) : ∀ fuel, n < fuel →
    ((natDigitsAux fuel n).all isDigitChar = true ∧ natDigitsAux fuel n ≠ [] ∧
      digitsToNat (natDigitsAux fuel n) = n) := by
  induction n using Nat.strong_induction_on with
  | _ n ih =>
    intro fuel hf
    match fuel, hf with
    | f + 1, _ =>
      simp only [natDigitsAux]
      by_cases h10 : n < 10
      · rw [if_pos h10]
        refine ⟨by simp [digitChar_isDigit n (by omega)], by simp, ?_⟩
        simp [digitsToNat, digitVal_digitChar n (by omega)]
      · rw [if_neg h10]
        have hlt : n / 10 < n := by omega
        have hfuel : n / 10 < f := by omega
        obtain ⟨ha, hne, hv⟩ := ih (n / 10) hlt f hfuel
        refine ⟨?_, by simp, ?_⟩
        · simp only [List.all_append, ha, List.all_cons, List.all_nil,
            digitChar_isDigit (n % 10) (by omega), Bool.and_self, Bool.and_true]
        · unfold digitsToNat at hv ⊢
          rw [List.foldl_append]
          simp only [List.foldl_cons, List.foldl_nil, hv,
            digitVal_digitChar (n % 10) (by omega)]
          omega

theorem natDigits_spec (n : Nat) :
    (natDigits n).all isDigitChar = true ∧ natDigits n ≠ [] ∧ digitsToNat (natDigits n) = n :=
  natDigitsAux_spec n (n + 1) (by omega)

theorem takeWhile_all_eq {p : Char → Bool} : ∀ l : List Char, l.all p = true → l.takeWhile p = l := by
  intro l hl
  induction l with
  | nil => rfl
  | cons c cs ih =>
    simp only [List.all_cons, Bool.and_eq_true] at hl
    rw [List.takeWhile_cons, if_pos (by simp [hl.1])]
    rw [ih hl.2]

theorem jsParseIntCore_digits (ds : List Char) (ha : ds.all isDigitChar = true) (hne : ds ≠ []) :
    jsParseIntCore ds = some (digitsToNat ds) := by
  simp only [jsParseIntCore]
  rw [takeWhile_all_eq ds ha]
  have hie : ds.isEmpty = false := by
    cases ds
    · exact absurd rfl hne
    · rfl
  rw [hie]
  simp

theorem dropWhile_not_head {p : Char → Bool} (c : Char) (cs : List Char) (h : p c = false) :
    (c :: cs).dropWhile p = c :: cs := by
  simp [List.dropWhile_cons, h]

/-- `parseInt` inverts the decimal printing of any integer. -/
theorem jsParseInt_toString (w : Int) : jsParseInt (jsNumToString w) = some w := by
  obtain ⟨ha, hne, hv⟩ := natDigits_spec w.natAbs
  by_cases hw : w < 0
  · have hform : jsNumToString w = ⟨'-' :: natDigits w.natAbs⟩ := by rw [jsNumToString, if_pos hw]
    rw [hform]
    show jsParseInt ⟨'-' :: natDigits w.natAbs⟩ = some w
    unfold jsParseInt
    have hdrop : ('-' :: natDigits w.natAbs).dropWhile isSpaceChar = '-' :: natDigits w.natAbs :=
      dropWhile_not_head _ _ (by decide)
    show (match ('-' :: natDigits w.natAbs).dropWhile isSpaceChar with
      | '-' :: rest => (jsParseIntCore rest).map (fun v => -(v : Int))
      | '+' :: rest => (jsParseIntCore rest).map (fun v => (v : Int))
      | cs => (jsParseIntCore cs).map (fun v => (v : Int))) = some w
    rw [hdrop]
    show (jsParseIntCore (natDigits w.natAbs)).map (fun v => -(v : Int)) = some w
    rw [jsParseIntCore_digits _ ha hne, hv]
    show some (-(w.natAbs : Int)) = some w
    congr 1
    omega
  · have hform : jsNumToString w = ⟨natDigits w.toNat⟩ := by rw [jsNumToString, if_neg hw]
    rw [hform]
    obtain ⟨ha2, hne2, hv2⟩ := natDigits_spec w.toNat
    unfold jsParseInt
    match hnd : natDigits w.toNat, hne2 with
    | c :: cs, _ =>
      have hcd : isDigitChar c = true := by
        rw [hnd] at ha2
        simp only [List.all_cons, Bool.and_eq_true] at ha2
        exact ha2.1
      have hcs : isSpaceChar c = false := by
        revert hcd
        unfold isDigitChar isSpaceChar
        simp only [decide_eq_true_eq, decide_eq_false_iff_not]
        intro hcd
        rintro (h | h | h | h) <;> (subst h; revert hcd; decide)
      have hdrop : (c :: cs).dropWhile isSpaceChar = c :: cs := dropWhile_not_head _ _ hcs
      have hcd' : c ≠ '-' ∧ c ≠ '+' := by
        revert hcd
        unfold isDigitChar
        simp only [decide_eq_true_eq]
        intro hcd
        constructor <;> (rintro rfl; revert hcd; decide)
      have hcore : jsParseIntCore (c :: cs) = some (digitsToNat (c :: cs)) := by
        apply jsParseIntCore_digits
        · rw [hnd] at ha2; exact ha2
        · simp
      have hval : digitsToNat (c :: cs) = w.toNat := by rw [← hnd]; exact hv2
      show (match (⟨c :: cs⟩ : String).data.dropWhile isSpaceChar with
        | '-' :: rest => (jsParseIntCore rest).map (fun v => -(v : Int))
        | '+' :: rest => (jsParseIntCore rest).map (fun v => (v : Int))
        | cs => (jsParseIntCore cs).map (fun v => (v : Int))) = some w
      show (match (c :: cs).dropWhile isSpaceChar with
        | '-' :: rest => (jsParseIntCore rest).map (fun v => -(v : Int))
        | '+' :: rest => (jsParseIntCore rest).map (fun v => (v : Int))
        | cs => (jsParseIntCore cs).map (fun v => (v : Int))) = some w
      rw [hdrop]
      split
      next rest heq =>
        injection heq with h1 h2
        exact absurd h1 hcd'.1
      next rest heq =>
        injection heq with h1 h2
        exact absurd h1 hcd'.2
      next u1 u2 =>
        rw [hcore, hval]
        show some ((w.toNat : Int)) = some w
        congr 1
        omega

-- ## Zero-padded rendering and reparsing

theorem twoDigits_pad (n : Nat) (h : n ≤ 99) :
    twoDigits (digitChar (n / 10 % 10)) (digitChar (n % 10)) = n := by
  unfold twoDigits
  rw [digitVal_digitChar _ (by omega), digitVal_digitChar _ (by omega)]
  omega

theorem threeDigits_pad (n : Nat) (h : n ≤ 999) :
    threeDigits (digitChar (n / 100 % 10)) (digitChar (n / 10 % 10)) (digitChar (n % 10)) = n := by
  unfold threeDigits
  rw [digitVal_digitChar _ (by omega), digitVal_digitChar _ (by omega),
    digitVal_digitChar _ (by omega)]
  omega

theorem fourDigits_pad (n : Nat) (h : n ≤ 9999) :
    fourDigits (digitChar (n / 1000 % 10)) (digitChar (n / 100 % 10))
      (digitChar (n / 10 % 10)) (digitChar (n % 10)) = n := by
  unfold fourDigits
  rw [digitVal_digitChar _ (by omega), digitVal_digitChar _ (by omega),
    digitVal_digitChar _ (by omega), digitVal_digitChar _ (by omega)]
  omega

theorem digitVal_le (c : Char) (h : isDigitChar c = true) : digitVal c ≤ 9 := by
  unfold isDigitChar at h
  simp only [decide_eq_true_eq] at h
  unfold digitVal
  omega

/-- Characterization of a successful `new Date(string)` parse in the model:
the timestamp decomposes into a valid civil day within years 0000-9999 plus a
time of day. -/
theorem parseDate_some (s : String) (t : Int) (h : parseDate s = some t) :
    ∃ (y m d : Nat) (tod : Int), ValidYmd (y : Int) m d ∧ y ≤ 9999 ∧ 0 ≤ tod ∧ tod < msPerDay ∧
      t = daysFromCivil (y : Int) m d * msPerDay + tod := by
  unfold parseDate at h
  split at h
  · -- date-only pattern
    rename_i y1 y2 y3 y4 m1 m2 d1 d2 heq
    split at h
    · rename_i hdig
      unfold mkDateOnly at h
      split at h
      · rename_i hvalid
        refine ⟨fourDigits y1 y2 y3 y4, twoDigits m1 m2, twoDigits d1 d2, 0, hvalid, ?_, by omega, by decide, ?_⟩
        · simp only [List.all_cons, List.all_nil, Bool.and_eq_true] at hdig
          have h1 := digitVal_le y1 hdig.1
          have h2 := digitVal_le y2 hdig.2.1
          have h3 := digitVal_le y3 hdig.2.2.1
          have h4 := digitVal_le y4 hdig.2.2.2.1
          unfold fourDigits
          omega
        · injection h with h
          omega
      · exact absurd h (by simp)
    · exact absurd h (by simp)
  · -- date-time pattern
    rename_i y1 y2 y3 y4 m1 m2 d1 d2 h1c h2c n1 n2 s1 s2 f1 f2 f3 heq
    split at h
    · rename_i hdig
      unfold mkDateTime at h
      split at h
      · rename_i hvalid
        refine ⟨fourDigits y1 y2 y3 y4, twoDigits m1 m2, twoDigits d1 d2,
          ((twoDigits h1c h2c * 3600000 + twoDigits n1 n2 * 60000 +
            twoDigits s1 s2 * 1000 + threeDigits f1 f2 f3 : Nat) : Int),
          hvalid.1, ?_, by omega, ?_, ?_⟩
        · simp only [List.all_cons, List.all_nil, Bool.and_eq_true] at hdig
          have hv1 := digitVal_le y1 hdig.1
          have hv2 := digitVal_le y2 hdig.2.1
          have hv3 := digitVal_le y3 hdig.2.2.1
          have hv4 := digitVal_le y4 hdig.2.2.2.1
          unfold fourDigits
          omega
        · obtain ⟨hva, hh, hm, hs⟩ := hvalid
          simp only [List.all_cons, List.all_nil, Bool.and_eq_true] at hdig
          have hf1 := digitVal_le f1 hdig.2.2.2.2.2.2.2.2.2.2.2.2.2.2.1
          have hf2 := digitVal_le f2 hdig.2.2.2.2.2.2.2.2.2.2.2.2.2.2.2.1
          have hf3 := digitVal_le f3 hdig.2.2.2.2.2.2.2.2.2.2.2.2.2.2.2.2.1
          unfold msPerDay
          unfold threeDigits
          omega
        · injection h with h
          rw [← h]
      · exact absurd h (by simp)
    · exact absurd h (by simp)
  · exact absurd h (by simp)

/-- Reparsing the `yyyy-MM-dd` export rendering of a parseable timestamp gives
the UTC midnight of the same calendar day. -/
theorem parseDate_formatYmd (s : String) (t : Int) (h : parseDate s = some t) :
    parseDate (formatYmd t) = some (utcMidnight t) := by
  obtain ⟨y, m, d, tod, hvalid, hy, htod0, htodlt, ht⟩ := parseDate_some s t h
  have hq : t / msPerDay = daysFromCivil (y : Int) m d := by
    rw [ht]
    unfold msPerDay at htodlt ⊢
    omega
  have hcfd : civilFromDays (t / msPerDay) = ((y : Int), m, d) := by
    rw [hq]
    exact daysFromCivil_spec _ _ _ hvalid
  have hmid : utcMidnight t = daysFromCivil (y : Int) m d * msPerDay := by
    unfold utcMidnight
    rw [hq]
  have hm12 : m ≤ 12 := hvalid.2.1
  have hd31 : d ≤ 31 := by
    have := hvalid.2.2.2
    unfold daysInMonth at this
    split at this
    · split at this <;> omega
    · split at this <;> omega
  have hchars : formatYmdChars t =
      [digitChar (y / 1000 % 10), digitChar (y / 100 % 10), digitChar (y / 10 % 10), digitChar (y % 10),
       '-', digitChar (m / 10 % 10), digitChar (m % 10), '-', digitChar (d / 10 % 10), digitChar (d % 10)] := by
    unfold formatYmdChars
    rw [hcfd]
    show pad4 ((y : Int)).toNat ++ '-' :: pad2 m ++ '-' :: pad2 d = _
    rw [Int.toNat_natCast]
    rfl
  unfold formatYmd
  rw [hchars]
  show (if [digitChar (y / 1000 % 10), digitChar (y / 100 % 10), digitChar (y / 10 % 10), digitChar (y % 10),
        digitChar (m / 10 % 10), digitChar (m % 10), digitChar (d / 10 % 10), digitChar (d % 10)].all isDigitChar then
      mkDateOnly
        (fourDigits (digitChar (y / 1000 % 10)) (digitChar (y / 100 % 10)) (digitChar (y / 10 % 10)) (digitChar (y % 10)))
        (twoDigits (digitChar (m / 10 % 10)) (digitChar (m % 10)))
        (twoDigits (digitChar (d / 10 % 10)) (digitChar (d % 10)))
    else none) = some (utcMidnight t)
  have hdg : ∀ x : Nat, isDigitChar (digitChar (x % 10)) = true := fun x => digitChar_isDigit _ (by omega)
  rw [if_pos (by simp [hdg])]
  rw [fourDigits_pad y hy, twoDigits_pad m (by omega), twoDigits_pad d (by omega)]
  unfold mkDateOnly
  rw [if_pos hvalid, hmid]

-- ## CSV scanner and serializer round trip

theorem intercalate_single {α : Type} (sep : List α) (a : List α) :
    List.intercalate sep [a] = a := by
  simp [List.intercalate]

theorem intercalate_cons2 {α : Type} (sep : List α) (a : List α) (l : List (List α))
    (h : l ≠ []) :
    List.intercalate sep (a :: l) = a ++ sep ++ List.intercalate sep l := by
  match l with
  | b :: l2 => simp [List.intercalate, List.intersperse]

theorem csvMachine_plain_step (acc : List Char) (record : List String) (rest : List Char)
    (c : Char) (h1 : c ≠ '"') (h2 : c ≠ ',') (h3 : c ≠ '\r') (h4 : c ≠ '\n') :
    csvMachine .plain acc record (c :: rest) = csvMachine .plain (c :: acc) record rest := by
  conv_lhs => rw [csvMachine.eq_def]
  split
  all_goals first
  | rfl
  | simp_all

theorem csvMachine_quoted_step (acc : List Char) (record : List String) (rest : List Char)
    (c : Char) (h1 : c ≠ '"') :
    csvMachine .quoted acc record (c :: rest) = csvMachine .quoted (c :: acc) record rest := by
  conv_lhs => rw [csvMachine.eq_def]
  split
  all_goals first
  | rfl
  | simp_all

theorem csvMachine_quoted_close (acc : List Char) (record : List String) (rest : List Char)
    (hrest : rest.head? ≠ some '"') :
    csvMachine .quoted acc record ('"' :: rest) = csvMachine .closed acc record rest := by
  conv_lhs => rw [csvMachine.eq_def]
  split
  case h_1 heq => simp_all
  case h_2 hay c2 rest2 heq =>
    obtain ⟨rfl, rfl⟩ := heq
    split
    all_goals first | rfl | simp_all

theorem csvMachine_bare (cs : List Char)
    (hok : ∀ c ∈ cs, c ≠ '"' ∧ c ≠ ',' ∧ c ≠ '\r' ∧ c ≠ '\n') :
    ∀ acc record rest, csvMachine .plain acc record (cs ++ rest) =
      csvMachine .plain (cs.reverse ++ acc) record rest := by
  induction cs with
  | nil => intro acc record rest; simp
  | cons c cs ih =>
    intro acc record rest
    obtain ⟨h1, h2, h3, h4⟩ := hok c (by simp)
    have hok2 : ∀ x ∈ cs, x ≠ '"' ∧ x ≠ ',' ∧ x ≠ '\r' ∧ x ≠ '\n' := fun x hx => hok x (by simp [hx])
    rw [List.cons_append, csvMachine_plain_step acc record (cs ++ rest) c h1 h2 h3 h4]
    rw [ih hok2 (c :: acc) record rest]
    simp

theorem escQuote_cons (c : Char) (cs : List Char) (h : c ≠ '"') :
    escQuote (c :: cs) = c :: escQuote cs := by
  conv_lhs => rw [escQuote.eq_def]
  split <;> simp_all

theorem csvMachine_escQuote (f : List Char) :
    ∀ acc record rest, rest.head? ≠ some '"' →
      csvMachine .quoted acc record (escQuote f ++ '"' :: rest) =
        csvMachine .closed (f.reverse ++ acc) record rest := by
  induction f with
  | nil =>
    intro acc record rest hrest
    show csvMachine .quoted acc record ('"' :: rest) = _
    rw [csvMachine_quoted_close acc record rest hrest]
    simp
  | cons c f ih =>
    intro acc record rest hrest
    by_cases hc : c = '"'
    · subst hc
      show csvMachine .quoted acc record ('"' :: '"' :: (escQuote f ++ '"' :: rest)) = _
      rw [show csvMachine .quoted acc record ('"' :: '"' :: (escQuote f ++ '"' :: rest)) =
        csvMachine .quoted ('"' :: acc) record (escQuote f ++ '"' :: rest) from rfl]
      rw [ih ('"' :: acc) record rest hrest]
      simp
    · rw [escQuote_cons c f hc, List.cons_append]
      rw [csvMachine_quoted_step acc record (escQuote f ++ '"' :: rest) c hc]
      rw [ih (c :: acc) record rest hrest]
      simp

theorem stringMk_data (s : String) : (⟨s.data⟩ : String) = s := rfl

theorem finishRec_eq (record : List String) (acc : List Char) :
    finishRec record acc = record.reverse ++ [⟨acc.reverse⟩] := by
  simp [finishRec]

theorem csvMachine_plain_nil (acc : List Char) (record : List String) :
    csvMachine .plain acc record [] = [finishRec record acc] := rfl

theorem csvMachine_closed_nil (acc : List Char) (record : List String) :
    csvMachine .closed acc record [] = [finishRec record acc] := rfl

theorem csvMachine_plain_comma (acc : List Char) (record : List String) (rest : List Char) :
    csvMachine .plain acc record (',' :: rest) =
      csvMachine .plain [] ((⟨acc.reverse⟩ : String) :: record) rest := rfl

theorem csvMachine_closed_comma (acc : List Char) (record : List String) (rest : List Char) :
    csvMachine .closed acc record (',' :: rest) =
      csvMachine .plain [] ((⟨acc.reverse⟩ : String) :: record) rest := rfl

theorem csvMachine_plain_crlf (acc : List Char) (record : List String) (rest : List Char) :
    csvMachine .plain acc record ('\r' :: '\n' :: rest) =
      finishRec record acc :: csvStart rest := by
  cases rest <;> rfl

theorem csvMachine_closed_crlf (acc : List Char) (record : List String) (rest : List Char) :
    csvMachine .closed acc record ('\r' :: '\n' :: rest) =
      finishRec record acc :: csvStart rest := by
  cases rest <;> rfl

theorem csvMachine_openQuote (record : List String) (rest : List Char) :
    csvMachine .plain [] record ('"' :: rest) = csvMachine .quoted [] record rest := rfl

theorem needsQuote_chars (f : String) (h : needsQuote f = false) :
    ∀ c ∈ f.data, c ≠ '"' ∧ c ≠ ',' ∧ c ≠ '\r' ∧ c ≠ '\n' := by
  intro c hc
  unfold needsQuote at h
  rw [List.any_eq_false] at h
  have := h c hc
  simp only [decide_eq_true_eq] at this
  push_neg at this
  exact ⟨this.2.1, this.1, this.2.2.1, this.2.2.2⟩

theorem csvMachine_field_nil (f : String) (record : List String) :
    csvMachine .plain [] record (unparseField f) = [finishRec record f.data.reverse] := by
  unfold unparseField
  by_cases hq : needsQuote f
  · rw [if_pos hq]
    rw [show escQuote f.data ++ ['"'] = escQuote f.data ++ '"' :: [] from rfl]
    rw [csvMachine_openQuote, csvMachine_escQuote f.data [] record [] (by simp)]
    simp [csvMachine_closed_nil]
  · rw [if_neg hq]
    have := csvMachine_bare f.data (needsQuote_chars f (by simpa using hq)) [] record []
    simpa using this

theorem csvMachine_field_comma (f : String) (record : List String) (rest : List Char) :
    csvMachine .plain [] record (unparseField f ++ ',' :: rest) =
      csvMachine .plain [] (f :: record) rest := by
  unfold unparseField
  by_cases hq : needsQuote f
  · rw [if_pos hq]
    rw [show ('"' :: (escQuote f.data ++ ['"'])) ++ ',' :: rest =
      '"' :: (escQuote f.data ++ '"' :: (',' :: rest)) from by simp]
    rw [csvMachine_openQuote, csvMachine_escQuote f.data [] record (',' :: rest) (by simp)]
    rw [csvMachine_closed_comma]
    simp [stringMk_data]
  · rw [if_neg hq]
    rw [csvMachine_bare f.data (needsQuote_chars f (by simpa using hq)) [] record (',' :: rest)]
    rw [csvMachine_plain_comma]
    simp [stringMk_data]

theorem csvMachine_field_crlf (f : String) (record : List String) (rest : List Char) :
    csvMachine .plain [] record (unparseField f ++ '\r' :: '\n' :: rest) =
      (record.reverse ++ [f]) :: csvStart rest := by
  unfold unparseField
  by_cases hq : needsQuote f
  · rw [if_pos hq]
    rw [show ('"' :: (escQuote f.data ++ ['"'])) ++ '\r' :: '\n' :: rest =
      '"' :: (escQuote f.data ++ '"' :: ('\r' :: '\n' :: rest)) from by simp]
    rw [csvMachine_openQuote, csvMachine_escQuote f.data [] record _ (by simp)]
    rw [csvMachine_closed_crlf, finishRec_eq]
    simp [stringMk_data]
  · rw [if_neg hq]
    rw [csvMachine_bare f.data (needsQuote_chars f (by simpa using hq)) [] record _]
    rw [csvMachine_plain_crlf, finishRec_eq]
    simp [stringMk_data]

theorem csvRecord_nil (fields : List String) (h : fields ≠ []) :
    ∀ record, csvMachine .plain [] record (unparseRecord fields) = [record.reverse ++ fields] := by
  induction fields with
  | nil => exact absurd rfl h
  | cons f fs ih =>
    intro record
    match fs, ih with
    | [], _ =>
      unfold unparseRecord
      simp only [List.map_cons, List.map_nil]
      rw [intercalate_single]
      rw [csvMachine_field_nil, finishRec_eq]
      simp [stringMk_data]
    | g :: gs, ih =>
      unfold unparseRecord
      simp only [List.map_cons]
      rw [intercalate_cons2 _ _ _ (by simp)]
      rw [show (unparseField f ++ [','] ++ List.intercalate [','] (unparseField g :: gs.map unparseField)) =
        unparseField f ++ ',' :: List.intercalate [','] (unparseField g :: gs.map unparseField) from by simp]
      rw [csvMachine_field_comma]
      have := ih (by simp) (f :: record)
      unfold unparseRecord at this
      simp only [List.map_cons] at this
      rw [this]
      simp

theorem csvRecord_crlf (fields : List String) (h : fields ≠ []) :
    ∀ record rest, csvMachine .plain [] record (unparseRecord fields ++ '\r' :: '\n' :: rest) =
      (record.reverse ++ fields) :: csvStart rest := by
  induction fields with
  | nil => exact absurd rfl h
  | cons f fs ih =>
    intro record rest
    match fs, ih with
    | [], _ =>
      unfold unparseRecord
      simp only [List.map_cons, List.map_nil]
      rw [intercalate_single]
      rw [csvMachine_field_crlf]
    | g :: gs, ih =>
      unfold unparseRecord
      simp only [List.map_cons]
      rw [intercalate_cons2 _ _ _ (by simp)]
      rw [show (unparseField f ++ [','] ++ List.intercalate [','] (unparseField g :: gs.map unparseField)) ++ '\r' :: '\n' :: rest =
        unparseField f ++ ',' :: (List.intercalate [','] (unparseField g :: gs.map unparseField) ++ '\r' :: '\n' :: rest) from by simp]
      rw [csvMachine_field_comma]
      have := ih (by simp) (f :: record) rest
      unfold unparseRecord at this
      simp only [List.map_cons] at this
      rw [this]
      simp

theorem csvStart_ne (cs : List Char) (h : cs ≠ []) :
    csvStart cs = csvMachine .plain [] [] cs := by
  cases cs
  · exact absurd rfl h
  · rfl

theorem unparseRecord_ne_nil (r : List String) (h : 2 ≤ r.length) : unparseRecord r ≠ [] := by
  match r, h with
  | f :: g :: rest, _ =>
    unfold unparseRecord
    simp only [List.map_cons]
    rw [intercalate_cons2 _ _ _ (by simp)]
    simp

theorem csvStart_unparse (rs : List (List String)) (h : ∀ r ∈ rs, 2 ≤ r.length) :
    csvStart (List.intercalate ['\r', '\n'] (rs.map unparseRecord)) = rs := by
  induction rs with
  | nil => rfl
  | cons r rs ih =>
    match rs, ih with
    | [], _ =>
      simp only [List.map_cons, List.map_nil]
      rw [intercalate_single]
      have hr2 : 2 ≤ r.length := h r (by simp)
      rw [csvStart_ne _ (unparseRecord_ne_nil r hr2)]
      rw [csvRecord_nil r (by rintro rfl; simp at hr2)]
      rfl
    | s :: rs2, ih =>
      simp only [List.map_cons]
      rw [intercalate_cons2 _ _ _ (by simp)]
      have hr2 : 2 ≤ r.length := h r (by simp)
      rw [show unparseRecord r ++ ['\r', '\n'] ++ List.intercalate ['\r', '\n'] (unparseRecord s :: rs2.map unparseRecord) =
        unparseRecord r ++ '\r' :: '\n' :: List.intercalate ['\r', '\n'] (unparseRecord s :: rs2.map unparseRecord) from by simp]
      rw [csvStart_ne _ (by simp [unparseRecord_ne_nil r hr2])]
      rw [csvRecord_crlf r (by rintro rfl; simp at hr2)]
      have := ih (fun x hx => h x (by simp [hx]))
      simp only [List.map_cons] at this
      rw [this]
      simp

/-- Papa round trip: parsing the serialized records recovers them exactly,
for records of at least two fields (as all of the app's records are). -/
theorem papaParse_roundtrip (rs : List (List String)) (h : ∀ r ∈ rs, 2 ≤ r.length) :
    papaParse (csvUnparse rs) = rs := by
  unfold papaParse csvUnparse
  rw [show (⟨List.intercalate ['\r', '\n'] (rs.map unparseRecord)⟩ : String).data =
    List.intercalate ['\r', '\n'] (rs.map unparseRecord) from rfl]
  rw [csvStart_unparse rs h]
  apply List.filter_eq_self.mpr
  intro r hr
  have := h r hr
  simp only [ne_eq, decide_eq_true_eq]
  rintro rfl
  simp at this

-- ## Supporting characterizations for the filter claims

theorem passKey_iff (v : Option String) (p : String → Bool) :
    passKey v p = true ↔ ∀ s, v = some s → s ≠ "" → p s = true := by
  cases v with
  | none => simp [passKey]
  | some s =>
    show (if s = "" then true else p s) = true ↔ _
    by_cases hs : s = ""
    · subst hs; simp
    · rw [if_neg hs]; simp [hs]

theorem passKey_empty (v : Option String) (p : String → Bool) (h : v.getD "" = "") :
    passKey v p = true := by
  cases v with
  | none => rfl
  | some s => simp only [Option.getD_some] at h; simp [passKey, h]

-- ## Claim theorems

/-- C1: for every entry collection and optional date range, the date-range
filter passes every entry when `from` is absent; otherwise an entry with a
parseable date passes iff its UTC calendar day lies between the picker's
`from` day and `to` day (defaulting `to` to `from`), inclusive on both
ends. -/
theorem claimC1_dateRangeFilter (data : List LeasingEntry) (range : JsDateRange) :
    (range.rangeFrom = none → filteredByDate data range = data) ∧
    (∀ f, range.rangeFrom = some f →
      ∀ e t, parseDate e.date = some t →
        (dateRangePass range e = true ↔
          (daysFromCivil f.year (f.month + 1) f.day ≤ t / msPerDay ∧
           t / msPerDay ≤ daysFromCivil (range.rangeTo.getD f).year
             ((range.rangeTo.getD f).month + 1) (range.rangeTo.getD f).day))) := by
  constructor
  · intro h
    unfold filteredByDate
    apply List.filter_eq_self.mpr
    intro e he
    unfold dateRangePass
    rw [h]
  · intro f hf e t ht
    unfold dateRangePass
    rw [hf, ht]
    show (decide (dateUTC f ≤ utcMidnight t) && decide (utcMidnight t ≤ dateUTC (range.rangeTo.getD f))) = true ↔ _
    unfold dateUTC utcMidnight msPerDay
    simp only [Bool.and_eq_true, decide_eq_true_eq]
    constructor
    · rintro ⟨h1, h2⟩
      omega
    · rintro ⟨h1, h2⟩
      omega

/-- Witness for C1: with the range 2025-06-01 .. 2025-06-30 selected, an
entry dated 2025-06-15 passes the date-range filter. -/
theorem claimC1_witness :
    dateRangePass ⟨some ⟨2025, 5, 1⟩, some ⟨2025, 5, 30⟩⟩
      ⟨"a", 1, "2025-06-15", "t", "", "", "", "", ""⟩ = true :=
  ((claimC1_dateRangeFilter [] ⟨some ⟨2025, 5, 1⟩, some ⟨2025, 5, 30⟩⟩).2
    ⟨2025, 5, 1⟩ rfl ⟨"a", 1, "2025-06-15", "t", "", "", "", "", ""⟩
    (daysFromCivil 2025 6 15 * msPerDay) (by decide)).mpr (by decide)

/-- C2: the field filter passes an entry iff every key present with a
non-empty value satisfies its substring predicate (decimal form for `week`,
raw stored string for `date`, case-folded for the other fields), combined
with AND; a mapping whose values are all absent or empty leaves the
collection unchanged. -/
theorem claimC2_fieldFilter (l : List LeasingEntry) (filters : LeasingFilter) :
    (∀ e, fieldFilterPass filters e = true ↔
      ((∀ v, filters.week = some v → v ≠ "" → jsIncludes (jsNumToString e.week) v = true) ∧
       (∀ v, filters.date = some v → v ≠ "" → jsIncludes e.date v = true) ∧
       (∀ v, filters.tenantName = some v → v ≠ "" → jsIncludes (jsToLower e.tenantName) (jsToLower v) = true) ∧
       (∀ v, filters.businessName = some v → v ≠ "" → jsIncludes (jsToLower e.businessName) (jsToLower v) = true) ∧
       (∀ v, filters.businessType = some v → v ≠ "" → jsIncludes (jsToLower e.businessType) (jsToLower v) = true) ∧
       (∀ v, filters.contact = some v → v ≠ "" → jsIncludes (jsToLower e.contact) (jsToLower v) = true) ∧
       (∀ v, filters.notes = some v → v ≠ "" → jsIncludes (jsToLower e.notes) (jsToLower v) = true) ∧
       (∀ v, filters.status = some v → v ≠ "" → jsIncludes (jsToLower e.status) (jsToLower v) = true))) ∧
    ((filters.week.getD "" = "" ∧ filters.date.getD "" = "" ∧ filters.tenantName.getD "" = "" ∧
      filters.businessName.getD "" = "" ∧ filters.businessType.getD "" = "" ∧
      filters.contact.getD "" = "" ∧ filters.notes.getD "" = "" ∧ filters.status.getD "" = "") →
      finalFiltered l filters = l) := by
  constructor
  · intro e
    unfold fieldFilterPass
    simp only [Bool.and_eq_true]
    rw [passKey_iff, passKey_iff, passKey_iff, passKey_iff, passKey_iff, passKey_iff,
      passKey_iff, passKey_iff]
    tauto
  · rintro ⟨h1, h2, h3, h4, h5, h6, h7, h8⟩
    unfold finalFiltered
    apply List.filter_eq_self.mpr
    intro e he
    unfold fieldFilterPass
    rw [passKey_empty _ _ h1, passKey_empty _ _ h2, passKey_empty _ _ h3,
      passKey_empty _ _ h4, passKey_empty _ _ h5, passKey_empty _ _ h6,
      passKey_empty _ _ h7, passKey_empty _ _ h8]
    rfl

/-- Witness for C2: a `week: "3"` filter keeps an entry with week 13
(substring match on the decimal form) and the all-empty filter is the
identity on a one-entry collection. -/
theorem claimC2_witness :
    (fieldFilterPass { week := some "3" } ⟨"a", 13, "2025-06-15", "t", "", "", "", "", ""⟩ = true) ∧
    finalFiltered [⟨"a", 13, "2025-06-15", "t", "", "", "", "", ""⟩] { week := some "" } =
      [⟨"a", 13, "2025-06-15", "t", "", "", "", "", ""⟩] :=
  ⟨((claimC2_fieldFilter [] { week := some "3" }).1 _).mpr (by decide),
   (claimC2_fieldFilter [⟨"a", 13, "2025-06-15", "t", "", "", "", "", ""⟩] { week := some "" }).2
     (by decide)⟩

/-- C7: computing the sorted sequence never mutates the filtered collection:
the sort runs on a freshly allocated copy, so the original array reference
holds exactly its prior contents afterwards, while the returned reference
holds the pure sorted result. -/
theorem claimC7_sortNoMutation (h : ArrayHeap) (r : Nat) (cfg : Option SortConfig)
    (hr : r < h.next) :
    readArr (sortedDataOnHeap h r cfg).1 r = readArr h r ∧
    readArr (sortedDataOnHeap h r cfg).1 (sortedDataOnHeap h r cfg).2 =
      sortedData (readArr h r) cfg := by
  have hne : r ≠ h.next := by omega
  cases cfg with
  | none =>
    unfold sortedDataOnHeap allocArr readArr sortedData
    simp [hne]
  | some c =>
    unfold sortedDataOnHeap allocArr sortInPlace readArr sortedData
    simp [hne]

/-- Witness for C7: on a one-array heap, sorting by week leaves the original
array untouched. -/
theorem claimC7_witness :
    readArr (sortedDataOnHeap ⟨fun _ => [sampleEntry1], 1⟩ 0
      (some ⟨.week, .ascending⟩)).1 0 = readArr ⟨fun _ => [sampleEntry1], 1⟩ 0 :=
  (claimC7_sortNoMutation ⟨fun _ => [sampleEntry1], 1⟩ 0
    (some ⟨.week, .ascending⟩) (by decide)).1

/-- C8: selecting the field currently sorted ascending flips the direction to
descending; selecting a different field, a field sorted descending, or any
field when no sort is active yields that field ascending; hence selecting the
same field twice flips the direction. -/
theorem claimC8_handleSort (cfg : Option SortConfig) (k : SortKey) :
    (cfg = some ⟨k, .ascending⟩ → handleSort cfg k = some ⟨k, .descending⟩) ∧
    (∀ c, cfg = some c → c.key ≠ k → handleSort cfg k = some ⟨k, .ascending⟩) ∧
    (∀ c, cfg = some c → c.direction = .descending → handleSort cfg k = some ⟨k, .ascending⟩) ∧
    (cfg = none → handleSort cfg k = some ⟨k, .ascending⟩) ∧
    handleSort (handleSort cfg k) k =
      some ⟨k, if handleSort cfg k = some ⟨k, .ascending⟩ then .descending else .ascending⟩ := by
  rcases cfg with _ | ⟨key, dir⟩
  · refine ⟨by rintro ⟨⟩, by rintro c ⟨⟩, by rintro c ⟨⟩, fun _ => rfl, ?_⟩
    show handleSort (some ⟨k, .ascending⟩) k = _
    unfold handleSort
    simp
  · constructor
    · intro heq
      simp only [Option.some.injEq, SortConfig.mk.injEq] at heq
      obtain ⟨rfl, rfl⟩ := heq
      simp [handleSort]
    constructor
    · intro c heq hne
      injection heq with heq
      subst heq
      have hne2 : key ≠ k := hne
      simp [handleSort, hne2]
    constructor
    · intro c heq hdir
      injection heq with heq
      subst heq
      have hdir2 : dir = .descending := hdir
      subst hdir2
      simp [handleSort]
    constructor
    · rintro ⟨⟩
    · by_cases hkey : key = k
      · subst hkey
        cases dir <;> simp [handleSort]
      · have h1 : handleSort (some ⟨key, dir⟩) k = some ⟨k, .ascending⟩ := by
          simp [handleSort, hkey]
        rw [h1]
        simp [handleSort, h1]

/-- Witness for C8: clicking `week` while it is sorted ascending yields
`week` descending. -/
theorem claimC8_witness :
    handleSort (some ⟨.week, .ascending⟩) .week = some ⟨.week, .descending⟩ :=
  (claimC8_handleSort (some ⟨.week, .ascending⟩) .week).1 rfl

/-- C10: saving an edited entry rewrites exactly the stored entries whose id
matches the saved entry's id (pointwise, preserving length and order), and
saving a brand-new entry prepends it, leaving the rest unchanged. -/
theorem claimC10_handleSave (entryToEdit : Option LeasingEntry) (entry : LeasingEntry)
    (data : List LeasingEntry) :
    (entryToEdit.isSome = true →
      ((handleSave entryToEdit entry data).length = data.length ∧
       ∀ i : Nat, (handleSave entryToEdit entry data)[i]? =
         (data[i]?).map (fun item => if item.id = entry.id then entry else item))) ∧
    (entryToEdit = none → handleSave entryToEdit entry data = entry :: data) := by
  cases entryToEdit with
  | none => exact ⟨by rintro ⟨⟩, fun _ => rfl⟩
  | some e0 =>
    refine ⟨fun _ => ⟨?_, ?_⟩, by rintro ⟨⟩⟩
    · unfold handleSave
      simp
    · intro i
      unfold handleSave
      simp

/-- Witness for C10: editing replaces the matching entry in place. -/
theorem claimC10_witness :
    (handleSave (some sampleEntry1) sampleEntry2 [sampleEntry1, sampleEntry3]).length =
      [sampleEntry1, sampleEntry3].length ∧
    ∀ i : Nat, (handleSave (some sampleEntry1) sampleEntry2 [sampleEntry1, sampleEntry3])[i]? =
      ([sampleEntry1, sampleEntry3][i]?).map
        (fun item => if item.id = sampleEntry2.id then sampleEntry2 else item) :=
  (claimC10_handleSave (some sampleEntry1) sampleEntry2 [sampleEntry1, sampleEntry3]).1 rfl

-- ## Upload pipeline characterization

theorem parseRowEntry_ok (r : CsvRow) (freshId : String) (h : goodRow r = true) :
    parseRowEntry r freshId = .ok (parsedEntry r freshId) := by
  unfold goodRow at h
  simp only [Bool.and_eq_true, Bool.not_eq_true', Bool.or_eq_false_iff, beq_eq_false_iff_ne,
    ne_eq, Option.isSome_iff_exists] at h
  obtain ⟨⟨⟨hd, ht⟩, t, hpt⟩, w, hpw⟩ := h
  unfold parseRowEntry
  rw [if_neg (by tauto), hpt, hpw]
  unfold parsedEntry
  rw [hpt, hpw]
  rfl

theorem parseRowEntry_err (r : CsvRow) (freshId : String) (h : goodRow r = false) :
    parseRowEntry r freshId = .error (rowErrMsg r) := by
  unfold goodRow at h
  unfold parseRowEntry rowErrMsg
  by_cases hmiss : r.date = "" ∨ r.tenantName = ""
  · rw [if_pos hmiss, if_pos hmiss]
  · rw [if_neg hmiss, if_neg hmiss]
    cases hpt : parseDate r.date with
    | none => rfl
    | some t =>
      cases hpw : jsParseInt r.week with
      | none => rfl
      | some w =>
        exfalso
        rw [hpt, hpw] at h
        simp at h
        exact hmiss (by tauto)

theorem parseRowsFrom_ok_iff (supply : Nat → String) :
    ∀ (rows : List CsvRow) (i : Nat) (entries : List LeasingEntry),
      parseRowsFrom supply i rows = .ok entries ↔
        ((∀ r ∈ rows, goodRow r = true) ∧ entries = parsedEntries supply i rows) := by
  intro rows
  induction rows with
  | nil =>
    intro i entries
    show Except.ok [] = Except.ok entries ↔ _
    constructor
    · rintro h
      injection h with h
      exact ⟨by simp, by simp [parsedEntries, h.symm]⟩
    · rintro ⟨h1, h2⟩
      rw [h2]
      rfl
  | cons r rest ih =>
    intro i entries
    show (match parseRowEntry r (supply i) with
      | .error e => .error e
      | .ok entry =>
        match parseRowsFrom supply (i + 1) rest with
        | .error e => .error e
        | .ok l => Except.ok (entry :: l)) = Except.ok entries ↔ _
    cases hg : goodRow r with
    | false =>
      rw [parseRowEntry_err r (supply i) hg]
      constructor
      · rintro ⟨⟩
      · rintro ⟨h1, h2⟩
        rw [h1 r (by simp)] at hg
        cases hg
    | true =>
      rw [parseRowEntry_ok r (supply i) hg]
      cases hrest : parseRowsFrom supply (i + 1) rest with
      | error e =>
        constructor
        · rintro ⟨⟩
        · rintro ⟨h1, h2⟩
          have := (ih (i + 1) (parsedEntries supply (i + 1) rest)).mpr
            ⟨fun x hx => h1 x (by simp [hx]), rfl⟩
          rw [hrest] at this
          cases this
      | ok l =>
        have hl := (ih (i + 1) l).mp hrest
        constructor
        · rintro h
          injection h with h
          refine ⟨?_, ?_⟩
          · intro x hx
            rcases List.mem_cons.mp hx with rfl | hx2
            · exact hg
            · exact hl.1 x hx2
          · rw [← h]
            unfold parsedEntries
            rw [hl.2]
        · rintro ⟨h1, h2⟩
          rw [h2]
          unfold parsedEntries
          rw [hl.2]

theorem parseRowsFrom_err (supply : Nat → String) :
    ∀ (rows : List CsvRow) (i : Nat) (rbad : CsvRow),
      rows.find? (fun r => !goodRow r) = some rbad →
      parseRowsFrom supply i rows = .error (rowErrMsg rbad) := by
  intro rows
  induction rows with
  | nil => intro i rbad h; cases h
  | cons r rest ih =>
    intro i rbad h
    rw [List.find?_cons] at h
    show (match parseRowEntry r (supply i) with
      | .error e => .error e
      | .ok entry =>
        match parseRowsFrom supply (i + 1) rest with
        | .error e => .error e
        | .ok l => Except.ok (entry :: l)) = Except.error (rowErrMsg rbad)
    cases hg : goodRow r with
    | false =>
      rw [hg] at h
      simp only [Bool.not_false, Option.some.injEq] at h
      subst h
      rw [parseRowEntry_err r (supply i) hg]
    | true =>
      rw [hg] at h
      simp only [Bool.not_true] at h
      rw [parseRowEntry_ok r (supply i) hg]
      rw [ih (i + 1) rbad h]

theorem parsedEntries_getElem (supply : Nat → String) :
    ∀ (rows : List CsvRow) (j i : Nat),
      (parsedEntries supply j rows)[i]? = (rows[i]?).map (fun r => parsedEntry r (supply (j + i))) := by
  intro rows
  induction rows with
  | nil => intro j i; simp [parsedEntries]
  | cons r rest ih =>
    intro j i
    cases i with
    | zero => simp [parsedEntries]
    | succ i2 =>
      unfold parsedEntries
      rw [List.getElem?_cons_succ, ih (j + 1) i2, List.getElem?_cons_succ]
      have h3 : j + 1 + i2 = j + (i2 + 1) := by omega
      rw [h3]

/-- C3: the upload is all-or-nothing: if every data row validates, the entry
store is replaced by the parsed collection (missing ids freshly generated,
optional fields defaulted); if any row fails a validation, the import aborts
with the error message naming the first offending row and the store is left
exactly as it was. -/
theorem claimC3_uploadAllOrNothing (store : List LeasingEntry) (rows : List CsvRow)
    (supply : Nat → String) :
    ((∀ r ∈ rows, goodRow r = true) →
      uploadStore store rows supply = (parsedEntries supply 0 rows, none)) ∧
    (∀ rbad, rows.find? (fun r => !goodRow r) = some rbad →
      uploadStore store rows supply = (store, some (rowErrMsg rbad))) ∧
    ((¬ ∀ r ∈ rows, goodRow r = true) → (uploadStore store rows supply).1 = store) := by
  refine ⟨?_, ?_, ?_⟩
  · intro h
    unfold uploadStore parseRows
    rw [(parseRowsFrom_ok_iff supply rows 0 (parsedEntries supply 0 rows)).mpr ⟨h, rfl⟩]
  · intro rbad h
    unfold uploadStore parseRows
    rw [parseRowsFrom_err supply rows 0 rbad h]
  · intro h
    rcases hfind : rows.find? (fun r => !goodRow r) with _ | rb
    · exfalso
      apply h
      intro r hr
      have hb := List.find?_eq_none.mp hfind r hr
      cases hgr : goodRow r
      · exact absurd (by rw [hgr]; rfl) hb
      · rfl
    · unfold uploadStore parseRows
      rw [parseRowsFrom_err supply rows 0 rb hfind]

/-- Witness for C3: a valid single-row upload replaces the store, and the
parsed entry gets the freshly generated id since the row has none. -/
theorem claimC3_witness :
    uploadStore [sampleEntry1] [⟨"", "3", "2025-06-01", "t", "b", "bt", "c", "n", "s"⟩] sampleSupply =
      (parsedEntries sampleSupply 0 [⟨"", "3", "2025-06-01", "t", "b", "bt", "c", "n", "s"⟩], none) :=
  (claimC3_uploadAllOrNothing [sampleEntry1]
    [⟨"", "3", "2025-06-01", "t", "b", "bt", "c", "n", "s"⟩] sampleSupply).1 (by decide)

/-- Counterexample to C4 as stated: a row whose week field is `"-1"` passes
the import validation (`parseInt` accepts a sign), so a negative week is
stored. -/
theorem claimC4_counterexample :
    parseRows [⟨"x", "-1", "2025-06-01", "t", "", "", "", "", ""⟩] sampleSupply =
      .ok [⟨"x", -1, "2025-06-01T00:00:00.000Z", "t", "", "", "", "", ""⟩] ∧
    (-1 : Int) < 0 := by
  constructor
  · rfl
  · decide

/-- C4 (amended): every stored entry's week is the integer `parseInt` read
from its row (so non-numeric weeks are rejected and the import fails), but
negative integers are accepted and stored. -/
theorem claimC4_weekInteger (rows : List CsvRow) (supply : Nat → String) :
    (∀ entries, parseRows rows supply = .ok entries →
      ∀ (i : Nat) r, rows[i]? = some r →
        ∃ w, jsParseInt r.week = some w ∧ (entries[i]?).map LeasingEntry.week = some w) ∧
    ((∃ r ∈ rows, jsParseInt r.week = none) → ∃ msg, parseRows rows supply = .error msg) := by
  constructor
  · intro entries hok i r hr
    obtain ⟨hgood, hent⟩ := (parseRowsFrom_ok_iff supply rows 0 entries).mp hok
    have hmem : r ∈ rows := List.getElem?_mem hr
    have hg := hgood r hmem
    unfold goodRow at hg
    simp only [Bool.and_eq_true, Option.isSome_iff_exists] at hg
    obtain ⟨⟨h1, t, ht⟩, w, hw⟩ := hg
    refine ⟨w, hw, ?_⟩
    rw [hent, parsedEntries_getElem supply rows 0 i, hr]
    show some ((jsParseInt r.week).getD 0) = some w
    rw [hw]
    rfl
  · intro ⟨r, hmem, hnone⟩
    refine ⟨?_, ?_⟩
    case _ => exact rowErrMsg ((rows.find? (fun r => !goodRow r)).getD r)
    have hbad : goodRow r = false := by
      unfold goodRow
      rw [hnone]
      simp
    have hsome : (rows.find? (fun x => !goodRow x)).isSome = true := by
      rw [List.find?_isSome]
      exact ⟨r, hmem, by simp [hbad]⟩
    obtain ⟨rb, hrb⟩ := Option.isSome_iff_exists.mp hsome
    rw [hrb]
    unfold parseRows at *
    rw [parseRowsFrom_err supply rows 0 rb hrb]
    rfl

/-- Witness for C4 (amended): on a concrete two-row file the stored weeks are
the parseInt values of the rows. -/
theorem claimC4_witness :
    ∃ w, jsParseInt "7" = some w ∧
      (((parseRows [⟨"x", "7", "2025-06-01", "t", "", "", "", "", ""⟩] sampleSupply).toOption.getD [])[0]?).map
        LeasingEntry.week = some w := by
  have h := (claimC4_weekInteger [⟨"x", "7", "2025-06-01", "t", "", "", "", "", ""⟩] sampleSupply).1
    [⟨"x", 7, "2025-06-01T00:00:00.000Z", "t", "", "", "", "", ""⟩] (by rfl) 0
    ⟨"x", "7", "2025-06-01", "t", "", "", "", "", ""⟩ (by rfl)
  obtain ⟨w, hw1, hw2⟩ := h
  exact ⟨w, hw1, by rw [← hw2]; rfl⟩

/-! ### The sort engine: order properties of the comparator -/

/-- Two characters with the same code unit are equal. -/
theorem charEqOfToNat (a b : Char) (h : a.toNat = b.toNat) : a = b := by
  cases a; cases b
  simp only [Char.toNat] at h
  congr 1
  exact UInt32.toNat.inj h

/-- `jsStrLt` is asymmetric. -/
theorem jsStrLt_asymm : ∀ x y : List Char, jsStrLt x y = true → jsStrLt y x = false := by
  intro x
  induction x with
  | nil =>
    intro y h
    cases y with
    | nil => simp [jsStrLt] at h
    | cons b bs => simp [jsStrLt]
  | cons a as ih =>
    intro y h
    cases y with
    | nil => simp [jsStrLt] at h
    | cons b bs =>
      simp only [jsStrLt] at h ⊢
      rcases Nat.lt_trichotomy a.toNat b.toNat with h1 | h1 | h1
      · have h2 : ¬ b.toNat < a.toNat := by omega
        simp [h1, h2]
      · have hab : ¬ a.toNat < b.toNat := by omega
        have hba : ¬ b.toNat < a.toNat := by omega
        simp only [hab, hba, if_false] at h ⊢
        exact ih bs h
      · have h2 : ¬ a.toNat < b.toNat := by omega
        simp [h1, h2] at h

/-- `jsStrLt` is transitive. -/
theorem jsStrLt_trans : ∀ x y z : List Char,
    jsStrLt x y = true → jsStrLt y z = true → jsStrLt x z = true := by
  intro x
  induction x with
  | nil =>
    intro y z h1 h2
    cases y with
    | nil => simp [jsStrLt] at h1
    | cons b bs =>
      cases z with
      | nil => simp [jsStrLt] at h2
      | cons c cs => simp [jsStrLt]
  | cons a as ih =>
    intro y z h1 h2
    cases y with
    | nil => simp [jsStrLt] at h1
    | cons b bs =>
      cases z with
      | nil => simp [jsStrLt] at h2
      | cons c cs =>
        simp only [jsStrLt] at h1 h2 ⊢
        rcases Nat.lt_trichotomy a.toNat b.toNat with hab | hab | hab
        · rcases Nat.lt_trichotomy b.toNat c.toNat with hbc | hbc | hbc
          · simp [show a.toNat < c.toNat by omega]
          · simp [show a.toNat < c.toNat by omega]
          · have h3 : ¬ b.toNat < c.toNat := by omega
            simp [h3, show c.toNat < b.toNat from hbc] at h2
        · have h3 : ¬ a.toNat < b.toNat := by omega
          have h4 : ¬ b.toNat < a.toNat := by omega
          simp only [h3, h4, if_false] at h1
          rcases Nat.lt_trichotomy b.toNat c.toNat with hbc | hbc | hbc
          · simp [show a.toNat < c.toNat by omega]
          · have h5 : ¬ b.toNat < c.toNat := by omega
            have h6 : ¬ c.toNat < b.toNat := by omega
            simp only [h5, h6, if_false] at h2
            have h7 : ¬ a.toNat < c.toNat := by omega
            have h8 : ¬ c.toNat < a.toNat := by omega
            simp only [h7, h8, if_false]
            exact ih bs cs h1 h2
          · have h5 : ¬ b.toNat < c.toNat := by omega
            simp [h5, show c.toNat < b.toNat from hbc] at h2
        · have h3 : ¬ a.toNat < b.toNat := by omega
          simp [h3, show b.toNat < a.toNat from hab] at h1

/-- `jsStrLt` is connected: mutually non-smaller strings are equal. -/
theorem jsStrLt_connex : ∀ x y : List Char,
    jsStrLt x y = false → jsStrLt y x = false → x = y := by
  intro x
  induction x with
  | nil =>
    intro y h1 h2
    cases y with
    | nil => rfl
    | cons b bs => simp [jsStrLt] at h1
  | cons a as ih =>
    intro y h1 h2
    cases y with
    | nil => simp [jsStrLt] at h2
    | cons b bs =>
      simp only [jsStrLt] at h1 h2
      rcases Nat.lt_trichotomy a.toNat b.toNat with h | h | h
      · simp [h] at h1
      · have hab : ¬ a.toNat < b.toNat := by omega
        have hba : ¬ b.toNat < a.toNat := by omega
        simp only [hab, hba, if_false] at h1 h2
        rw [charEqOfToNat a b h, ih bs h1 h2]
      · simp [h] at h2

/-- Asymmetry and transitivity with connectedness give the complement-chaining
needed for transitivity of the non-strict order. -/
theorem boolLtNegTrans {κ : Type} (lt : κ → κ → Bool)
    (htrans : ∀ x y z, lt x y = true → lt y z = true → lt x z = true)
    (hconnex : ∀ x y, lt x y = false → lt y x = false → x = y)
    (x y z : κ) : lt y x = false → lt z y = false → lt z x = false := by
  intro h1 h2
  cases hzx : lt z x with
  | false => rfl
  | true =>
    exfalso
    cases hyz : lt y z with
    | true =>
      have h3 := htrans y z x hyz hzx
      rw [h1] at h3
      exact Bool.noConfusion h3
    | false =>
      have hz : z = y := hconnex z y h2 hyz
      rw [hz, h1] at hzx
      exact Bool.noConfusion hzx

/-- The totalized strict per-key comparison is asymmetric. -/
theorem entryLtT_asymm (k : SortKey) (a b : LeasingEntry) :
    entryLtT k a b = true → entryLtT k b a = false := by
  cases k
  case week =>
    simp only [entryLtT, decide_eq_true_eq, decide_eq_false_iff_not]
    omega
  case date =>
    simp only [entryLtT, decide_eq_true_eq, decide_eq_false_iff_not]
    omega
  all_goals exact jsStrLt_asymm _ _

/-- Chaining complements of the totalized strict comparison. -/
theorem entryLtT_negTrans (k : SortKey) (a b c : LeasingEntry) :
    entryLtT k b a = false → entryLtT k c b = false → entryLtT k c a = false := by
  cases k
  case week =>
    simp only [entryLtT, decide_eq_false_iff_not]
    omega
  case date =>
    simp only [entryLtT, decide_eq_false_iff_not]
    omega
  all_goals exact boolLtNegTrans jsStrLt jsStrLt_trans jsStrLt_connex _ _ _

/-- The totalized sorting precondition is transitive. -/
theorem leEntriesT_trans (cfg : SortConfig) :
    ∀ a b c : LeasingEntry,
      leEntriesT cfg a b = true → leEntriesT cfg b c = true → leEntriesT cfg a c = true := by
  intro a b c
  obtain ⟨k, dir⟩ := cfg
  cases dir
  · show (!entryLtT k b a) = true → (!entryLtT k c b) = true → (!entryLtT k c a) = true
    simp only [Bool.not_eq_true']
    exact entryLtT_negTrans k a b c
  · show (!entryLtT k a b) = true → (!entryLtT k b c) = true → (!entryLtT k a c) = true
    simp only [Bool.not_eq_true']
    intro h1 h2
    exact entryLtT_negTrans k c b a h2 h1

/-- The totalized sorting precondition is total. -/
theorem leEntriesT_total (cfg : SortConfig) :
    ∀ a b : LeasingEntry, (leEntriesT cfg a b || leEntriesT cfg b a) = true := by
  intro a b
  obtain ⟨k, dir⟩ := cfg
  cases dir
  · show ((!entryLtT k b a) || !entryLtT k a b) = true
    cases h : entryLtT k b a
    · simp
    · simp [entryLtT_asymm k b a h]
  · show ((!entryLtT k a b) || !entryLtT k b a) = true
    cases h : entryLtT k a b
    · simp
    · simp [entryLtT_asymm k a b h]

/-- `jsNumLtOpt` is asymmetric (`NaN` never compares below anything). -/
theorem jsNumLtOpt_asymm (x y : Option Int) : jsNumLtOpt x y = true → jsNumLtOpt y x = false := by
  cases x <;> cases y <;> simp [jsNumLtOpt] <;> omega

/-- The strict per-key comparison is asymmetric. -/
theorem entryLt_asymm (k : SortKey) (a b : LeasingEntry) :
    entryLt k a b = true → entryLt k b a = false := by
  cases k
  case week =>
    simp only [entryLt, decide_eq_true_eq, decide_eq_false_iff_not]
    omega
  case date => exact jsNumLtOpt_asymm _ _
  all_goals exact jsStrLt_asymm _ _

/-- The three-way comparator, written through the strict per-key comparison. -/
theorem cmpEntries_eq_threeWay (cfg : SortConfig) (a b : LeasingEntry) :
    cmpEntries cfg a b =
      if entryLt cfg.key a b then (if cfg.direction = SortDir.ascending then (-1 : Int) else 1)
      else if entryLt cfg.key b a then (if cfg.direction = SortDir.ascending then (1 : Int) else -1)
      else 0 := by
  obtain ⟨k, dir⟩ := cfg
  cases k
  case week =>
    by_cases h1 : a.week < b.week
    · simp [cmpEntries, entryLt, h1]
    · by_cases h2 : b.week < a.week <;> simp [cmpEntries, entryLt, h1, h2]
  all_goals rfl

/-- The sorting precondition, written through the strict per-key comparison. -/
theorem leEntries_dirEq (cfg : SortConfig) (a b : LeasingEntry) :
    leEntries cfg a b =
      (if cfg.direction = SortDir.ascending then !entryLt cfg.key b a
       else !entryLt cfg.key a b) := by
  have h := cmpEntries_eq_threeWay cfg a b
  have hasymm := entryLt_asymm cfg.key a b
  unfold leEntries
  rw [h]
  by_cases hdir : cfg.direction = SortDir.ascending <;>
    cases h1 : entryLt cfg.key a b <;> cases h2 : entryLt cfg.key b a <;>
      simp_all

/-- The strict comparison agrees with its totalization whenever the dates
involved parse (in particular, unconditionally on every non-date key). -/
theorem entryLt_eq_entryLtT (k : SortKey) (a b : LeasingEntry)
    (h : k = SortKey.date → (parseDate a.date).isSome ∧ (parseDate b.date).isSome) :
    entryLt k a b = entryLtT k a b := by
  cases k
  case date =>
    obtain ⟨ha, hb⟩ := h rfl
    obtain ⟨ta, hta⟩ := Option.isSome_iff_exists.mp ha
    obtain ⟨tb, htb⟩ := Option.isSome_iff_exists.mp hb
    show jsNumLtOpt (parseDate a.date) (parseDate b.date)
        = decide ((parseDate a.date).getD 0 < (parseDate b.date).getD 0)
    rw [hta, htb]
    rfl
  all_goals rfl

/-- The sorting precondition agrees with its totalization whenever the dates
involved parse. -/
theorem leEntries_eq_leEntriesT (cfg : SortConfig) (a b : LeasingEntry)
    (h : cfg.key = SortKey.date → (parseDate a.date).isSome ∧ (parseDate b.date).isSome) :
    leEntries cfg a b = leEntriesT cfg a b := by
  rw [leEntries_dirEq]
  obtain ⟨k, dir⟩ := cfg
  have hab : entryLt k a b = entryLtT k a b := entryLt_eq_entryLtT k a b h
  have hba : entryLt k b a = entryLtT k b a :=
    entryLt_eq_entryLtT k b a (fun hk => ⟨(h hk).2, (h hk).1⟩)
  cases dir
  · rw [if_pos rfl, hba]
    rfl
  · rw [if_neg (show SortDir.descending ≠ SortDir.ascending by decide), hab]
    rfl

/-- Sorting with the comparator coincides with sorting with its totalization
as long as all dates parse when the date key is selected. -/
theorem mergeSort_leEntries_congr (cfg : SortConfig) (l : List LeasingEntry)
    (h : cfg.key = SortKey.date → ∀ e ∈ l, (parseDate e.date).isSome) :
    l.mergeSort (leEntries cfg) = l.mergeSort (leEntriesT cfg) := by
  have hl : ∀ a ∈ l, ∀ b ∈ l, leEntries cfg a b = leEntriesT cfg (id a) (id b) := by
    intro a ha b hb
    exact leEntries_eq_leEntriesT cfg a b (fun hk => ⟨h hk a ha, h hk b hb⟩)
  have hmap := List.map_mergeSort hl
  simpa using hmap

/-- C6: the sort engine.  With no sort selected the input is returned
unchanged; otherwise the result is a permutation of the input ordered by the
three-way comparator, which compares `week` numerically, `date` by the parsed
timestamps, and every other key by lower-cased string comparison, ties mapping
to `0` and descending negating ascending; the result is pairwise ordered by
the comparator (given, for the date key, that all dates parse, since an
unparseable date makes the comparator tie with everything), and the sort is
stable: tied pairs keep their input order. -/
theorem claimC6_sortEngine (l : List LeasingEntry) :
    sortedData l none = l ∧
    (∀ cfg : SortConfig, (sortedData l (some cfg)).Perm l) ∧
    (∀ a b : LeasingEntry, cmpEntries ⟨SortKey.week, SortDir.ascending⟩ a b =
      if a.week < b.week then -1 else if b.week < a.week then 1 else 0) ∧
    (∀ (a b : LeasingEntry) (ta tb : Int),
      parseDate a.date = some ta → parseDate b.date = some tb →
      cmpEntries ⟨SortKey.date, SortDir.ascending⟩ a b =
        if ta < tb then -1 else if tb < ta then 1 else 0) ∧
    (∀ (k : SortKey) (a b : LeasingEntry), k ≠ SortKey.week → k ≠ SortKey.date →
      cmpEntries ⟨k, SortDir.ascending⟩ a b =
        if jsStrLt (jsToLower (entryStr a k)).data (jsToLower (entryStr b k)).data then -1
        else if jsStrLt (jsToLower (entryStr b k)).data (jsToLower (entryStr a k)).data then 1
        else 0) ∧
    (∀ (k : SortKey) (a b : LeasingEntry),
      cmpEntries ⟨k, SortDir.descending⟩ a b = -cmpEntries ⟨k, SortDir.ascending⟩ a b) ∧
    (∀ cfg : SortConfig, (cfg.key = SortKey.date → ∀ e ∈ l, (parseDate e.date).isSome) →
      (sortedData l (some cfg)).Pairwise (fun a b => cmpEntries cfg a b ≤ 0) ∧
      (∀ a b : LeasingEntry, cmpEntries cfg a b = 0 → [a, b].Sublist l →
        [a, b].Sublist (sortedData l (some cfg)))) := by
  refine ⟨rfl, ?_, ?_, ?_, ?_, ?_, ?_⟩
  · intro cfg
    exact List.mergeSort_perm l (leEntries cfg)
  · intro a b
    by_cases h1 : a.week < b.week
    · simp [cmpEntries, h1]
    · by_cases h2 : b.week < a.week <;> simp [cmpEntries, h1, h2]
  · intro a b ta tb hta htb
    show (if jsNumLtOpt (parseDate a.date) (parseDate b.date) then (-1 : Int)
          else if jsNumLtOpt (parseDate b.date) (parseDate a.date) then 1 else 0) = _
    rw [hta, htb]
    show (if decide (ta < tb) = true then (-1 : Int)
          else if decide (tb < ta) = true then 1 else 0) = _
    by_cases h1 : ta < tb
    · simp [h1]
    · by_cases h2 : tb < ta <;> simp [h1, h2]
  · intro k a b hkw hkd
    cases k
    case week => exact absurd rfl hkw
    case date => exact absurd rfl hkd
    all_goals rfl
  · intro k a b
    rw [cmpEntries_eq_threeWay, cmpEntries_eq_threeWay]
    cases h1 : entryLt k a b <;> cases h2 : entryLt k b a <;> simp
  · intro cfg hd
    have hcongr := mergeSort_leEntries_congr cfg l hd
    constructor
    · show (l.mergeSort (leEntries cfg)).Pairwise _
      rw [hcongr]
      have hp := List.sorted_mergeSort (leEntriesT_trans cfg) (leEntriesT_total cfg) l
      refine hp.imp_of_mem ?_
      intro x y hx hy hxy
      have hx2 : x ∈ l := List.mem_mergeSort.mp hx
      have hy2 : y ∈ l := List.mem_mergeSort.mp hy
      have hagree := leEntries_eq_leEntriesT cfg x y (fun hk => ⟨hd hk x hx2, hd hk y hy2⟩)
      rw [hxy] at hagree
      exact of_decide_eq_true hagree
    · intro a b hcmp hsub
      show [a, b].Sublist (l.mergeSort (leEntries cfg))
      rw [hcongr]
      have ha : a ∈ l := hsub.subset (by simp)
      have hb : b ∈ l := hsub.subset (by simp)
      have hle : leEntries cfg a b = true := decide_eq_true hcmp.le
      have hleT : leEntriesT cfg a b = true := by
        rw [← leEntries_eq_leEntriesT cfg a b (fun hk => ⟨hd hk a ha, hd hk b hb⟩)]
        exact hle
      exact List.pair_sublist_mergeSort (leEntriesT_trans cfg) (leEntriesT_total cfg) hleT hsub

/-- A concrete instance of C6: identity with no sort, the date comparator on
two parsed dates, and pairwise sortedness of a concrete week-sorted list. -/
theorem claimC6_witness :
    sortedData [datedEntry1] none = [datedEntry1] ∧
    cmpEntries ⟨SortKey.date, SortDir.ascending⟩ datedEntry1 datedEntry2 = -1 ∧
    (sortedData [datedEntry2, datedEntry1]
        (some ⟨SortKey.week, SortDir.ascending⟩)).Pairwise
      (fun a b => cmpEntries ⟨SortKey.week, SortDir.ascending⟩ a b ≤ 0) := by
  refine ⟨(claimC6_sortEngine [datedEntry1]).1, ?_, ?_⟩
  · have h := (claimC6_sortEngine []).2.2.2.1 datedEntry1 datedEntry2
      (daysFromCivil 2025 6 1 * msPerDay) (daysFromCivil 2025 6 2 * msPerDay)
      (by rfl) (by rfl)
    rw [h]
    rfl
  · have h := ((claimC6_sortEngine [datedEntry2, datedEntry1]).2.2.2.2.2.2
      ⟨SortKey.week, SortDir.ascending⟩ (fun hk => SortKey.noConfusion hk)).1
    exact h

/-! ### CSV export -/

/-- `mapM` over `Option` succeeds when every element maps to `some`, and the
result is the pointwise forced map. -/
theorem mapM_isSome_eq {α β : Type} (f : α → Option β) (dflt : β) :
    ∀ l : List α, (∀ a ∈ l, (f a).isSome = true) →
      l.mapM f = some (l.map (fun a => (f a).getD dflt)) := by
  intro l
  induction l with
  | nil => intro h; rfl
  | cons a as ih =>
    intro h
    obtain ⟨b, hb⟩ := Option.isSome_iff_exists.mp (h a (by simp))
    rw [List.mapM_cons, hb, ih (fun x hx => h x (by simp [hx]))]
    simp [hb]

/-- C9: the CSV export.  Each exported record lists the entry's fields in
header order with the date reformatted to `yyyy-MM-dd`; when every date
parses, the produced text is the header row
`id,week,date,tenantName,businessName,businessType,contact,notes,status`
followed by one serialized record per entry in order, joined by CRLF, and the
file is named `leasing_report_<today>.csv`. -/
theorem claimC9_csvExport (entries : List LeasingEntry) (now : Int)
    (h : ∀ e ∈ entries, (parseDate e.date).isSome = true) :
    (∀ (e : LeasingEntry) (t : Int), exportRecord e t =
      [e.id, jsNumToString e.week, formatYmd t, e.tenantName, e.businessName,
       e.businessType, e.contact, e.notes, e.status]) ∧
    ∃ text : String,
      handleDownload entries now
        = some (text, "leasing_report_" ++ formatYmd now ++ ".csv") ∧
      text.data = List.intercalate ['\r', '\n']
        (("id,week,date,tenantName,businessName,businessType,contact,notes,status"
            : String).data
          :: entries.map (fun e => unparseRecord (exportRecord e ((parseDate e.date).getD 0)))) := by
  refine ⟨fun e t => rfl, ?_⟩
  have hrecs : entries.map (fun a => ((parseDate a.date).map (exportRecord a)).getD [])
      = entries.map (fun e => exportRecord e ((parseDate e.date).getD 0)) := by
    refine List.map_congr_left ?_
    intro e he
    obtain ⟨t, ht⟩ := Option.isSome_iff_exists.mp (h e he)
    rw [ht]
    rfl
  refine ⟨csvUnparse (csvHeaders ::
    entries.map (fun e => exportRecord e ((parseDate e.date).getD 0))), ?_, ?_⟩
  · unfold handleDownload
    rw [mapM_isSome_eq (fun e => (parseDate e.date).map (exportRecord e)) [] entries
      (fun a ha => by simpa using h a ha), hrecs]
  · show List.intercalate ['\r', '\n']
        ((csvHeaders :: entries.map (fun e => exportRecord e ((parseDate e.date).getD 0))).map
          unparseRecord) = _
    rw [List.map_cons, List.map_map]
    rfl

/-- A concrete instance of C9: exporting one dated entry. -/
theorem claimC9_witness :
    ∃ text : String,
      handleDownload [datedEntry1] 0
        = some (text, "leasing_report_" ++ formatYmd 0 ++ ".csv") ∧
      text.data = List.intercalate ['\r', '\n']
        (("id,week,date,tenantName,businessName,businessType,contact,notes,status"
            : String).data
          :: [datedEntry1].map
              (fun e => unparseRecord (exportRecord e ((parseDate e.date).getD 0)))) :=
  (claimC9_csvExport [datedEntry1] 0 (by
    intro e he
    simp only [List.mem_singleton] at he
    subst he
    rfl)).2

/-! ### Export / import round trip -/

/-- `formatYmd` never renders the empty string. -/
theorem formatYmd_ne_empty (t : Int) : formatYmd t ≠ "" := by
  intro h
  have h2 : formatYmdChars t = [] := congrArg String.data h
  unfold formatYmdChars at h2
  simp at h2

/-- Reading the exported record of an entry back through Papa's header mode
gives the entry's fields with the date in `yyyy-MM-dd` form. -/
theorem rowOfRecord_export (e : LeasingEntry) (t : Int) :
    rowOfRecord csvHeaders (exportRecord e t)
      = ⟨e.id, jsNumToString e.week, formatYmd t, e.tenantName, e.businessName,
         e.businessType, e.contact, e.notes, e.status⟩ := rfl

/-- An exported row of a parseable-dated entry validates, and parses to the
entry's round trip. -/
theorem parsedRow_eq_roundTrip (e : LeasingEntry) (fid : String) (t : Int)
    (hsome : parseDate e.date = some t) (hname : e.tenantName ≠ "") :
    goodRow (rowOfRecord csvHeaders (exportRecord e ((parseDate e.date).getD 0))) = true ∧
    parsedEntry (rowOfRecord csvHeaders (exportRecord e ((parseDate e.date).getD 0))) fid
      = roundTripEntry e fid := by
  have hte : (parseDate e.date).getD 0 = t := by rw [hsome]; rfl
  rw [hte, rowOfRecord_export]
  constructor
  · show (!(formatYmd t == "" || e.tenantName == "")
        && (parseDate (formatYmd t)).isSome && (jsParseInt (jsNumToString e.week)).isSome) = true
    rw [parseDate_formatYmd e.date t hsome, jsParseInt_toString]
    simp [formatYmd_ne_empty t, hname]
  · show (⟨if e.id = "" then fid else e.id, (jsParseInt (jsNumToString e.week)).getD 0,
        toISOString ((parseDate (formatYmd t)).getD 0), e.tenantName, e.businessName,
        e.businessType, e.contact, e.notes, e.status⟩ : LeasingEntry) = roundTripEntry e fid
    rw [parseDate_formatYmd e.date t hsome, jsParseInt_toString]
    unfold roundTripEntry
    rw [hte]
    rfl

/-- Over a collection: every exported row of a well-formed collection
validates, and the parsed collection is the pointwise round trip. -/
theorem parsedEntries_map_roundTrip (supply : Nat → String) :
    ∀ (es : List LeasingEntry) (i : Nat),
      (∀ e ∈ es, (parseDate e.date).isSome = true) →
      (∀ e ∈ es, e.tenantName ≠ "") →
      (∀ r ∈ es.map (fun e => rowOfRecord csvHeaders (exportRecord e ((parseDate e.date).getD 0))),
        goodRow r = true) ∧
      parsedEntries supply i
          (es.map (fun e => rowOfRecord csvHeaders (exportRecord e ((parseDate e.date).getD 0))))
        = roundTripEntries supply i es := by
  intro es
  induction es with
  | nil =>
    intro i h1 h2
    exact ⟨by simp, rfl⟩
  | cons e rest ih =>
    intro i h1 h2
    obtain ⟨t, ht⟩ := Option.isSome_iff_exists.mp (h1 e (by simp))
    have hmain := parsedRow_eq_roundTrip e (supply i) t ht (h2 e (by simp))
    have ihh := ih (i + 1) (fun x hx => h1 x (by simp [hx])) (fun x hx => h2 x (by simp [hx]))
    constructor
    · intro r hr
      simp only [List.map_cons, List.mem_cons] at hr
      rcases hr with rfl | hr
      · exact hmain.1
      · exact ihh.1 r hr
    · show parsedEntry _ (supply i) :: parsedEntries supply (i + 1) _
          = roundTripEntry e (supply i) :: roundTripEntries supply (i + 1) rest
      rw [hmain.2, ihh.2]

/-- C5 counterexample: an entry whose stored date carries a time of day (the
shape `handleSave` itself produces) does not round-trip: the reimported date
is the UTC midnight ISO string of the calendar day, not the original value —
not even the parsed instants agree. -/
theorem claimC5_counterexample :
    ∃ (text fname : String),
      handleDownload [dtEntry] 0 = some (text, fname) ∧
      (uploadStoreFromText [] text sampleSupply).2 = none ∧
      (uploadStoreFromText [] text sampleSupply).1.map (fun e => e.date)
        = ["2025-06-01T00:00:00.000Z"] ∧
      dtEntry.date = "2025-06-01T15:30:00.000Z" ∧
      parseDate "2025-06-01T00:00:00.000Z" ≠ parseDate dtEntry.date := by
  refine ⟨_, _, rfl, rfl, rfl, rfl, ?_⟩
  decide

/-- C5 (corrected): exporting and reimporting a collection whose dates all
parse and whose `tenantName`s are non-empty succeeds and yields the original
collection up to the documented per-entry normalization: every field is kept
except that an empty `id` is replaced by a fresh one and the `date` becomes
the ISO string of the UTC midnight of its calendar day (so the original date
string, and even the original instant, is not restored in general). -/
theorem claimC5_roundTrip (entries store : List LeasingEntry) (now : Int)
    (supply : Nat → String)
    (hdates : ∀ e ∈ entries, (parseDate e.date).isSome = true)
    (hnames : ∀ e ∈ entries, e.tenantName ≠ "") :
    (∀ (e : LeasingEntry) (fid : String),
      (roundTripEntry e fid).id = (if e.id = "" then fid else e.id) ∧
      (roundTripEntry e fid).week = e.week ∧
      (roundTripEntry e fid).date = toISOString (utcMidnight ((parseDate e.date).getD 0)) ∧
      (roundTripEntry e fid).tenantName = e.tenantName ∧
      (roundTripEntry e fid).businessName = e.businessName ∧
      (roundTripEntry e fid).businessType = e.businessType ∧
      (roundTripEntry e fid).contact = e.contact ∧
      (roundTripEntry e fid).notes = e.notes ∧
      (roundTripEntry e fid).status = e.status) ∧
    ∃ (text fname : String),
      handleDownload entries now = some (text, fname) ∧
      uploadStoreFromText store text supply = (roundTripEntries supply 0 entries, none) := by
  refine ⟨fun e fid => ⟨rfl, rfl, rfl, rfl, rfl, rfl, rfl, rfl, rfl⟩, ?_⟩
  have hrecs : entries.map (fun a => ((parseDate a.date).map (exportRecord a)).getD [])
      = entries.map (fun e => exportRecord e ((parseDate e.date).getD 0)) := by
    refine List.map_congr_left ?_
    intro e he
    obtain ⟨t, ht⟩ := Option.isSome_iff_exists.mp (hdates e he)
    rw [ht]
    rfl
  refine ⟨csvUnparse (csvHeaders ::
      entries.map (fun e => exportRecord e ((parseDate e.date).getD 0))),
    "leasing_report_" ++ formatYmd now ++ ".csv", ?_, ?_⟩
  · unfold handleDownload
    rw [mapM_isSome_eq (fun e => (parseDate e.date).map (exportRecord e)) [] entries
      (fun a ha => by simpa using hdates a ha), hrecs]
  · have hlen : ∀ r ∈ csvHeaders ::
        entries.map (fun e => exportRecord e ((parseDate e.date).getD 0)), 2 ≤ r.length := by
      intro r hr
      simp only [List.mem_cons] at hr
      rcases hr with rfl | hr
      · decide
      · obtain ⟨e, he, rfl⟩ := List.mem_map.mp hr
        simp [exportRecord]
    show uploadStore store
        (match papaParse (csvUnparse (csvHeaders ::
          entries.map (fun e => exportRecord e ((parseDate e.date).getD 0)))) with
        | [] => []
        | hdr :: recs => recs.map (rowOfRecord hdr)) supply = _
    rw [papaParse_roundtrip _ hlen]
    show uploadStore store
        ((entries.map (fun e => exportRecord e ((parseDate e.date).getD 0))).map
          (rowOfRecord csvHeaders)) supply = _
    rw [List.map_map]
    have h2 := parsedEntries_map_roundTrip supply entries 0 hdates hnames
    have hok : parseRows
        (entries.map (fun e => rowOfRecord csvHeaders (exportRecord e ((parseDate e.date).getD 0))))
        supply = .ok (roundTripEntries supply 0 entries) :=
      (parseRowsFrom_ok_iff supply _ 0 _).mpr ⟨h2.1, h2.2.symm⟩
    show (match parseRows
        ((rowOfRecord csvHeaders ∘ fun e => exportRecord e ((parseDate e.date).getD 0)) <$> entries)
        supply with
      | .ok uploadedData => (uploadedData, none)
      | .error e => (store, some e)) = _
    rw [show ((rowOfRecord csvHeaders ∘ fun e => exportRecord e ((parseDate e.date).getD 0))
        <$> entries)
      = entries.map (fun e => rowOfRecord csvHeaders (exportRecord e ((parseDate e.date).getD 0)))
      from rfl]
    rw [hok]

/-- A concrete instance of C5: one dated entry round-trips to its
normalization. -/
theorem claimC5_witness :
    ∃ (text fname : String),
      handleDownload [datedEntry1] 0 = some (text, fname) ∧
      uploadStoreFromText [] text sampleSupply
        = (roundTripEntries sampleSupply 0 [datedEntry1], none) :=
  (claimC5_roundTrip [datedEntry1] [] 0 sampleSupply
    (by
      intro e he
      simp only [List.mem_singleton] at he
      subst he
      rfl)
    (by
      intro e he
      simp only [List.mem_singleton] at he
      subst he
      decide)).2
